import Mathlib

/-!
Verification of the notedeck calendar reconciliation engine
(`crates/notedeck_calendar/src/lib.rs`) and of the NIP-73 external
content-ID parser (`nostr-0.37.0/src/nips/nip73.rs`).

The engine state is modelled as the four collections owned by
`CalendarApp` (events, calendars, all_rsvps, pending_rsvps); purely
visual fields of the Rust struct (subscription handles, galley caches,
draft buffers, feedback banners, selection state, web-of-trust cache)
are not part of the observable state the specification talks about and
are omitted.  Hash maps are modelled as association lists whose insert
replaces in place, so that "keyed by" semantics are preserved exactly.

Functions that live in the repository's `model.rs` (which is not part
of the provided sources: only its callers in `lib.rs` are) are modelled
from the specification and carry a `Modelled from the spec:` note in
their doc comment.
-/

/-- Lower-case an ASCII character, as Rust's `to_ascii_lowercase`. -/
def asciiLower (c : Char) : Char :=
  if 'A' ≤ c ∧ c ≤ 'Z' then Char.ofNat (c.toNat + 32) else c

/-- Rust `str::eq_ignore_ascii_case`: equality after ASCII lower-casing. -/
def eqIgnoreAsciiCase (a b : String) : Bool :=
  a.data.map asciiLower == b.data.map asciiLower

/-- RSVP status (accepted / declined / tentative / unknown), as in the spec's
data model for `CalendarRsvp`. -/
inductive RsvpStatus where
  | accepted
  | declined
  | tentative
  | unknown
deriving DecidableEq, Repr

/-- A calendar RSVP record.  Field set taken from the construction site in
`CalendarApp::submit_rsvp` (lib.rs lines 2177-2186), which builds the value
with exactly these fields. -/
structure CalendarRsvp where
  id_hex : String
  attendee_hex : String
  status : RsvpStatus
  created_at : Nat
  coordinate_kind : Option Nat
  coordinate_author_hex : Option String
  coordinate_identifier : Option String
  event_id_hex : Option String
deriving DecidableEq, Repr

/-- Modelled from the spec: the time range of an event is "either a date span
or a UTC instant pair with optional per-end timezone tags" (§3).  A date is a
civil day number, an instant is a Unix timestamp. -/
inductive CalendarEventTime where
  | allDay (startDay : Nat) (endDay : Option Nat)
  | timed (startTs : Int) (endTs : Option Int) (startTz endTz : Option String)
deriving DecidableEq, Repr

/-- A calendar event.  Fields restricted to the ones the reconciliation
engine reads: identity (kind, author, identifier, raw id), creation
timestamp, time range, calendar coordinates and the derived RSVP list.
Descriptive fields (title, summary, locations, ...) are carried opaquely by
the real struct and never inspected by the engine. -/
structure CalendarEvent where
  id_hex : String
  kind : Nat
  author_hex : String
  identifier : Option String
  created_at : Nat
  time : CalendarEventTime
  calendars : List String
  rsvps : List CalendarRsvp
deriving DecidableEq, Repr

/-- A calendar definition, as consumed by `insert_calendar_entry`,
`upsert_calendar` and `ensure_calendar_placeholders` in lib.rs. -/
structure CalendarDefinition where
  coordinate : String
  id_hex : String
  identifier : String
  title : String
  description : Option String
  author_hex : String
  created_at : Nat
deriving DecidableEq, Repr

/-! ### Association-list model of `HashMap<String, V>` -/

/-- Lookup in an association-list map (`HashMap::get`). -/
def afind {V : Type} (l : List (String × V)) (k : String) : Option V :=
  (l.find? (fun p => p.1 == k)).map (fun p => p.2)

/-- `HashMap::contains_key`. -/
def acontains {V : Type} (l : List (String × V)) (k : String) : Bool :=
  l.any (fun p => p.1 == k)

/-- `HashMap::insert`: replace the binding in place if the key is present,
append it otherwise. -/
def ainsert {V : Type} (l : List (String × V)) (k : String) (v : V) :
    List (String × V) :=
  if l.any (fun p => p.1 == k) then
    l.map (fun p => if p.1 == k then (k, v) else p)
  else
    l ++ [(k, v)]

/-- `HashMap::remove`. -/
def aerase {V : Type} (l : List (String × V)) (k : String) :
    List (String × V) :=
  l.filter (fun p => p.1 != k)

/-- `HashMap::values`. -/
def avals {V : Type} (l : List (String × V)) : List V :=
  l.map (fun p => p.2)

/-! ### RSVP/event matching (`model.rs`, modelled from the spec) -/

/-- Modelled from the spec: `CalendarRsvp::matches_event` lives in the
repository's `model.rs`, which is not among the provided sources.  Spec §3:
"An RSVP is associated with an event iff it matches — matches by direct
event-id reference, OR by (kind, author, identifier) coordinate equality
with the event." -/
def CalendarRsvp.matches_event (r : CalendarRsvp) (e : CalendarEvent) : Bool :=
  (match r.event_id_hex with
   | some i => i == e.id_hex
   | none => false) ||
  (match r.coordinate_kind, r.coordinate_author_hex, r.coordinate_identifier,
        e.identifier with
   | some k, some a, some i, some ei => k == e.kind && a == e.author_hex && i == ei
   | _, _, _, _ => false)

/-- Lexicographic strict order on character lists.  UTF-8 byte order (what
Rust's `String` comparison uses) agrees with code-point order, so this is
the comparison the source performs on id strings. -/
def chars_lt : List Char → List Char → Bool
  | [], [] => false
  | [], _ :: _ => true
  | _ :: _, [] => false
  | a :: as, b :: bs => if a < b then true else if b < a then false else chars_lt as bs

/-- Rust `String` strict comparison. -/
def str_lt (a b : String) : Bool :=
  chars_lt a.data b.data

/-- Strict "newer" order on RSVPs: later creation timestamp, ties broken by
lexicographically larger id.  This is the order the spec uses for
replaceable records ("creation-timestamp-then-id tie-break", §3). -/
def newer_than (x r : CalendarRsvp) : Bool :=
  decide (r.created_at < x.created_at) ||
    (decide (r.created_at = x.created_at) && str_lt r.id_hex x.id_hex)

/-- Modelled from the spec: `match_rsvps_for_event` lives in `model.rs`,
which is not among the provided sources.  Spec §4 (recompute_associations)
selects "every RSVP that matches this event", and the submit_local_rsvp
guarantee states that "a new RSVP from the same attendee simply supersedes
the old one in the event's association list because recompute derives the
mapping for the newest matching RSVP wins".  Accordingly the derived list
keeps, among the matching RSVPs, those not superseded by a strictly newer
matching RSVP from the same attendee. -/
def match_rsvps_for_event (event : CalendarEvent) (relevant : List CalendarRsvp) :
    List CalendarRsvp :=
  let matching := relevant.filter (fun r => r.matches_event event)
  matching.filter (fun r =>
    ! matching.any (fun x => x.attendee_hex == r.attendee_hex && newer_than x r))

/-! ### The engine state and its operations (lib.rs) -/

/-- The reconciliation engine's observable state: the four collections of
`CalendarApp` (lib.rs lines 567-571). -/
structure CalendarApp where
  events : List CalendarEvent
  calendars : List (String × CalendarDefinition)
  all_rsvps : List (String × CalendarRsvp)
  pending_rsvps : List (String × CalendarRsvp)
deriving DecidableEq, Repr

/-- `CalendarApp::new`: all collections empty. -/
def CalendarApp.new : CalendarApp :=
  { events := [], calendars := [], all_rsvps := [], pending_rsvps := [] }

/-- `CalendarApp::relevant_rsvps_for` (lib.rs 1083-1089): all confirmed RSVPs
matching the event. -/
def relevant_rsvps_for (all : List (String × CalendarRsvp)) (event : CalendarEvent) :
    List CalendarRsvp :=
  (avals all).filter (fun r => r.matches_event event)

/-- First index satisfying a predicate (Rust `Iterator::position`). -/
def findPos {α : Type} (p : α → Bool) : List α → Option Nat
  | [] => none
  | a :: as => if p a then some 0 else (findPos p as).map (fun n => n + 1)

/-- `CalendarApp::find_event_index` (lib.rs 1040-1056): events with a
`d` identifier are located by replaceable identity (kind, case-insensitive
identifier, case-insensitive author); events without one by raw id. -/
def find_event_index (events : List CalendarEvent) (event : CalendarEvent) :
    Option Nat :=
  match event.identifier with
  | some identifier =>
      findPos (fun existing =>
        existing.kind == event.kind &&
        (match existing.identifier with
         | some id => eqIgnoreAsciiCase id identifier
         | none => false) &&
        eqIgnoreAsciiCase existing.author_hex event.author_hex) events
  | none =>
      findPos (fun existing => existing.id_hex == event.id_hex) events

/-- `CalendarApp::upsert_event` (lib.rs 1029-1038): replace in place if an
event with the same identity exists, push otherwise.  Note that the stored
event is replaced unconditionally; no creation-timestamp comparison is
performed here (the month-galley cache purge is display-only and omitted). -/
def upsert_event (s : CalendarApp) (event : CalendarEvent) : CalendarApp :=
  match find_event_index s.events event with
  | some idx => { s with events := s.events.set idx event }
  | none => { s with events := s.events ++ [event] }

/-- `CalendarApp::insert_calendar_entry` (lib.rs 866-884): insert if vacant;
if occupied, replace only when the new definition is strictly newer by
creation timestamp, ties broken by lexicographically larger id. -/
def insert_calendar_entry (map : List (String × CalendarDefinition))
    (calendar : CalendarDefinition) : List (String × CalendarDefinition) :=
  match afind map calendar.coordinate with
  | none => ainsert map calendar.coordinate calendar
  | some old =>
      if old.created_at < calendar.created_at ∨
          (calendar.created_at = old.created_at ∧
            str_lt old.id_hex calendar.id_hex = true) then
        ainsert map calendar.coordinate calendar
      else
        map

/-- `CalendarApp::upsert_calendar` (lib.rs 935-959): same replace rule as
`insert_calendar_entry`, applied to the engine's calendar map.  The
`prune_hidden_calendars` / `prune_selected_calendars` calls touch only UI
state and are omitted. -/
def upsert_calendar (s : CalendarApp) (calendar : CalendarDefinition) : CalendarApp :=
  { s with calendars := insert_calendar_entry s.calendars calendar }

/-- Modelled from the spec: `parse_calendar_coordinate` lives in `model.rs`,
which is not among the provided sources.  Per the glossary a coordinate is
"a string key identifying a replaceable record by (kind, author,
identifier)", i.e. `kind:author:identifier`; the function returns the
(author, identifier) pair. -/
def parse_calendar_coordinate (s : String) : Option (String × String) :=
  match s.splitOn ":" with
  | [_, author, ident] => some (author, ident)
  | _ => none

/-- The placeholder definition built by `ensure_calendar_placeholders`
(lib.rs 915-923): empty id, identifier-derived title, creation timestamp 0. -/
def placeholder_definition (coordinate author_hex identifier : String) :
    CalendarDefinition :=
  { coordinate := coordinate
    id_hex := ""
    identifier := identifier
    title := identifier
    description := none
    author_hex := author_hex
    created_at := 0 }

/-- One step of the `ensure_calendar_placeholders` loop: skip coordinates
already present, insert a placeholder for parseable missing ones. -/
def placeholder_step (m : List (String × CalendarDefinition)) (coordinate : String) :
    List (String × CalendarDefinition) :=
  if acontains m coordinate then m
  else
    match parse_calendar_coordinate coordinate with
    | some (author_hex, identifier) =>
        ainsert m coordinate (placeholder_definition coordinate author_hex identifier)
    | none => m

/-- `CalendarApp::ensure_calendar_placeholders` (lib.rs 901-933): for every
calendar coordinate referenced by any event and absent from the calendar
map, insert a placeholder definition (the `unknown_ids` bookkeeping is
external I/O and omitted). -/
def ensure_calendar_placeholders (s : CalendarApp) : CalendarApp :=
  { s with calendars :=
      (s.events.flatMap (fun e => e.calendars)).foldl placeholder_step s.calendars }

/-- `CalendarApp::apply_rsvp` (lib.rs 1058-1081): insert the RSVP into the
confirmed map keyed by its id, drop any pending RSVP with that id, then
recompute the association list of every event the RSVP matches (from the
updated confirmed map). -/
def apply_rsvp (s : CalendarApp) (rsvp : CalendarRsvp) : CalendarApp :=
  let all := ainsert s.all_rsvps rsvp.id_hex rsvp
  { s with
    all_rsvps := all
    pending_rsvps := aerase s.pending_rsvps rsvp.id_hex
    events := s.events.map (fun e =>
      if rsvp.matches_event e then
        { e with rsvps := match_rsvps_for_event e (relevant_rsvps_for all e) }
      else e) }

/-- `CalendarApp::populate_event_rsvps` (lib.rs 1091-1094). -/
def populate_event_rsvps (s : CalendarApp) (event : CalendarEvent) : CalendarEvent :=
  { event with rsvps := match_rsvps_for_event event (relevant_rsvps_for s.all_rsvps event) }

/-- The event arm of `CalendarApp::process_note` (lib.rs 845-851): populate
the parsed event's RSVP list, upsert it, then ensure calendar placeholders. -/
def ingest_event (s : CalendarApp) (event : CalendarEvent) : CalendarApp :=
  ensure_calendar_placeholders (upsert_event s (populate_event_rsvps s event))

/-- A parsed protocol record, as classified by the kind dispatch in
`CalendarApp::process_note` (31922/31923 → event, 31924 → calendar
definition, 31925 → RSVP; other kinds are dropped before reaching the
engine). -/
inductive Record where
  | ev (e : CalendarEvent)
  | cal (c : CalendarDefinition)
  | rsvp (r : CalendarRsvp)
deriving DecidableEq, Repr

/-- `CalendarApp::process_note` (lib.rs 843-864) after parsing. -/
def ingest (s : CalendarApp) : Record → CalendarApp
  | .ev e => ingest_event s e
  | .cal c => upsert_calendar s c
  | .rsvp r => apply_rsvp s r

/-- The synthetic RSVP built by `CalendarApp::submit_rsvp`
(lib.rs 2176-2186): it references the target event both by coordinate and
by direct event id. -/
def mk_local_rsvp (event : CalendarEvent) (status : RsvpStatus)
    (attendee_hex id_hex : String) (created_at : Nat) : CalendarRsvp :=
  { id_hex := id_hex
    attendee_hex := attendee_hex
    status := status
    created_at := created_at
    coordinate_kind := some event.kind
    coordinate_author_hex := some event.author_hex
    coordinate_identifier := event.identifier
    event_id_hex := some event.id_hex }

/-- `CalendarApp::submit_rsvp` (lib.rs 2082-2208), at the engine level: if
the target event has no identifier the submission is rejected and the state
is untouched; otherwise the synthetic RSVP (with the predicted record id
and signing timestamp) is inserted into the confirmed map, the target
event's association list is recomputed from the updated confirmed map, and
the RSVP is also inserted into the pending map.  Record building, signing
and network transmission are external collaborators and omitted. -/
def submit_rsvp (s : CalendarApp) (event_idx : Nat) (event : CalendarEvent)
    (status : RsvpStatus) (attendee_hex id_hex : String) (created_at : Nat) :
    CalendarApp :=
  match event.identifier with
  | none => s
  | some _ =>
      let new_rsvp := mk_local_rsvp event status attendee_hex id_hex created_at
      let all := ainsert s.all_rsvps new_rsvp.id_hex new_rsvp
      let events :=
        match s.events.get? event_idx with
        | some e =>
            s.events.set event_idx
              { e with rsvps := match_rsvps_for_event e (relevant_rsvps_for all e) }
        | none => s.events
      { s with
        all_rsvps := all
        events := events
        pending_rsvps := ainsert s.pending_rsvps new_rsvp.id_hex new_rsvp }

/-- A mutating engine operation: ingest of a parsed record (event, calendar
definition or RSVP) or a local RSVP submission. -/
inductive Op where
  | note (r : Record)
  | submit (event_idx : Nat) (event : CalendarEvent) (status : RsvpStatus)
      (attendee_hex id_hex : String) (created_at : Nat)
deriving Repr

/-- One engine step. -/
def step (s : CalendarApp) : Op → CalendarApp
  | .note r => ingest s r
  | .submit idx event status attendee id created => submit_rsvp s idx event status attendee id created

/-! ### The event-construction / validation path (lib.rs 1774-1928, 1630-1707)

Record building ends with signing (`builder.sign(...).build()`) and
re-parsing the signed note (`parse_calendar_event`, in the missing
`model.rs`).  Those two steps are the external signing collaborator; the
model takes the signer-determined record id and creation timestamp as
inputs and produces the calendar event corresponding to the validated
draft directly.  Time-zone resolution (`chrono_tz`) is abstracted by an
oracle argument; the validation logic itself is translated from the
source. -/

/-- A calendar date, as produced by `NaiveDate::parse_from_str(_, "%Y-%m-%d")`. -/
structure NaiveDate where
  year : Nat
  month : Nat
  day : Nat
deriving DecidableEq, Repr

/-- A time of day, as produced by `NaiveTime::parse_from_str`. -/
structure NaiveTime where
  hour : Nat
  minute : Nat
  second : Nat
deriving DecidableEq, Repr

/-- Leading decimal digits of a character list, and the rest. -/
def takeDigits : List Char → (List Char × List Char)
  | [] => ([], [])
  | c :: cs =>
      if c.isDigit then
        let (ds, r) := takeDigits cs
        (c :: ds, r)
      else ([], c :: cs)

/-- Numeric value of a digit list. -/
def digitsToNat (ds : List Char) : Nat :=
  ds.foldl (fun acc c => acc * 10 + (c.toNat - 48)) 0

/-- Proleptic-Gregorian leap year (chrono's calendar). -/
def leap_year (y : Nat) : Bool :=
  y % 4 == 0 && (y % 100 != 0 || y % 400 == 0)

/-- Days in a month of the proleptic Gregorian calendar. -/
def days_in_month (y m : Nat) : Nat :=
  if m = 2 then (if leap_year y then 29 else 28)
  else if m = 4 ∨ m = 6 ∨ m = 9 ∨ m = 11 then 30
  else 31

/-- Calendar validity check performed by `NaiveDate::from_ymd`. -/
def NaiveDate.from_ymd (y m d : Nat) : Option NaiveDate :=
  if 1 ≤ m ∧ m ≤ 12 ∧ 1 ≤ d ∧ d ≤ days_in_month y m then
    some { year := y, month := m, day := d }
  else none

/-- Shape parser for `%Y-%m-%d`: up to four year digits, dash, up to two
month digits, dash, up to two day digits, end of input (non-negative years;
chrono's optional sign handling is outside the modelled input space). -/
def parse_ymd (cs : List Char) : Option (Nat × Nat × Nat) :=
  let (ys, r1) := takeDigits cs
  if ys.length = 0 ∨ 4 < ys.length then none
  else
    match r1 with
    | '-' :: r2 =>
        let (ms, r3) := takeDigits r2
        if ms.length = 0 ∨ 2 < ms.length then none
        else
          match r3 with
          | '-' :: r4 =>
              let (ds, r5) := takeDigits r4
              if ds.length = 0 ∨ 2 < ds.length ∨ r5 ≠ [] then none
              else some (digitsToNat ys, digitsToNat ms, digitsToNat ds)
          | _ => none
    | _ => none

/-- `NaiveDate::parse_from_str(value, "%Y-%m-%d")`. -/
def parse_date (s : String) : Option NaiveDate :=
  match parse_ymd s.data with
  | some (y, m, d) => NaiveDate.from_ymd y m d
  | none => none

/-- Shape parser for `%H:%M` / `%H:%M:%S`: up to two digits per component,
with or without a seconds component, end of input. -/
def parse_hms (cs : List Char) : Option (Nat × Nat × Nat) :=
  let (hs, r1) := takeDigits cs
  if hs.length = 0 ∨ 2 < hs.length then none
  else
    match r1 with
    | ':' :: r2 =>
        let (ms, r3) := takeDigits r2
        if ms.length = 0 ∨ 2 < ms.length then none
        else
          match r3 with
          | [] => some (digitsToNat hs, digitsToNat ms, 0)
          | ':' :: r4 =>
              let (ss, r5) := takeDigits r4
              if ss.length = 0 ∨ 2 < ss.length ∨ r5 ≠ [] then none
              else some (digitsToNat hs, digitsToNat ms, digitsToNat ss)
          | _ => none
    | _ => none

/-- `NaiveTime::parse_from_str` against `%H:%M` then `%H:%M:%S`. -/
def parse_time (s : String) : Option NaiveTime :=
  match parse_hms s.data with
  | some (h, m, sec) =>
      if h < 24 ∧ m < 60 ∧ sec < 60 then
        some { hour := h, minute := m, second := sec }
      else none
  | none => none

/-- `CalendarEventDraft::parse_required_date` (lib.rs 380-383). -/
def parse_required_date (value field : String) : Except String NaiveDate :=
  match parse_date value.trim with
  | some d => .ok d
  | none => .error (field ++ " must use YYYY-MM-DD format")

/-- `CalendarEventDraft::parse_optional_date` (lib.rs 385-391). -/
def parse_optional_date (value field : String) : Except String (Option NaiveDate) :=
  if value.trim = "" then .ok none
  else (parse_required_date value field).map some

/-- `CalendarEventDraft::parse_required_time` (lib.rs 393-402). -/
def parse_required_time (value field : String) : Except String NaiveTime :=
  let trimmed := value.trim
  if trimmed = "" then .error (field ++ " is required")
  else
    match parse_time trimmed with
    | some t => .ok t
    | none => .error (field ++ " must use HH:MM or HH:MM:SS format")

/-- Julian day number of a civil date (standard formula; every division is
on non-negative operands, so `Nat` floor division is exact). -/
def NaiveDate.civil (d : NaiveDate) : Nat :=
  let a := (14 - d.month) / 12
  let y := d.year + 4800 - a
  let m := d.month + 12 * a - 3
  d.day + (153 * m + 2) / 5 + 365 * y + y / 4 - y / 100 + y / 400 - 32045

/-- Days relative to the Unix epoch. -/
def NaiveDate.days_from_epoch (d : NaiveDate) : Int :=
  (d.civil : Int) - 2440588

/-- The timestamp of a naive date-time interpreted as UTC
(`Utc.from_utc_datetime(&naive).timestamp()`). -/
def naive_timestamp (d : NaiveDate) (t : NaiveTime) : Int :=
  d.days_from_epoch * 86400 + t.hour * 3600 + t.minute * 60 + t.second

/-- Abstraction of the `chrono_tz` database used by `resolve_timestamp`:
given a trimmed zone name and a naive timestamp, `none` means the name does
not parse as a zone, `some none` a nonexistent local time (offset-transition
gap), and `some (some ts)` the resolved UTC timestamp (for ambiguous local
times the source picks the earlier instant; the oracle returns the chosen
one). -/
def TzOracle : Type :=
  String → Int → Option (Option Int)

/-- `resolve_timestamp` (lib.rs 3255-3285).  Both call sites pass an
already-trimmed zone name (`start_tz_trimmed`, `tz_for_end`), so the
function's idempotent re-trim is omitted; the nonexistent-time message
renders the naive date-time as its numeric timestamp rather than through
chrono's formatter. -/
def resolve_timestamp (oracle : TzOracle) (naive : Int) (tzid label : String) :
    Except String (Int × Option String) :=
  if tzid = "" then .ok (naive, none)
  else
    match oracle tzid naive with
    | none => .error (label ++ " has unknown time zone '" ++ tzid ++ "'.")
    | some none =>
        .error (label ++ " " ++ toString naive ++ " does not exist in time zone "
          ++ tzid ++ " due to an offset transition.")
    | some (some ts) => .ok (ts, some tzid)

/-- `DraftEventType` (lib.rs 57-70). -/
inductive DraftEventType where
  | allDay
  | timed
deriving DecidableEq, Repr

/-- `DraftEventType::as_kind`. -/
def DraftEventType.as_kind : DraftEventType → Nat
  | .allDay => 31922
  | .timed => 31923

/-- The validation-relevant fields of `CalendarEventDraft` (lib.rs 72-94).
Descriptive text fields (summary, locations, images, hashtags, references,
participants) are emitted as tags unconditionally and can never fail
validation; `calendars` carries the output of `parsed_calendars`. -/
structure CalendarEventDraft where
  event_type : DraftEventType
  identifier : String
  title : String
  start_date : String
  end_date : String
  start_time : String
  end_time : String
  include_end : Bool
  start_tzid : String
  end_tzid : String
  calendars : List String
deriving Repr

/-- The calendar event corresponding to a successfully built draft record
(spec-modelled result of `parse_calendar_event` on the signed note). -/
def built_event (draft : CalendarEventDraft) (author_hex note_id : String)
    (note_created_at : Nat) (time : CalendarEventTime) : CalendarEvent :=
  { id_hex := note_id
    kind := draft.event_type.as_kind
    author_hex := author_hex
    identifier := some draft.identifier.trim
    created_at := note_created_at
    time := time
    calendars := draft.calendars
    rsvps := [] }

/-- `CalendarApp::build_calendar_event_note` (lib.rs 1774-1928): the
validation sequence translated from the source; on success, the calendar
event corresponding to the signed record (id and creation timestamp chosen
by the signing environment). -/
def build_calendar_event_note (draft : CalendarEventDraft)
    (author_hex note_id : String) (note_created_at : Nat) (oracle : TzOracle) :
    Except String CalendarEvent :=
  if draft.identifier.trim = "" then .error "Identifier is required."
  else
    if draft.title.trim = "" then .error "Title is required."
    else
      let mk := built_event draft author_hex note_id note_created_at
      match draft.event_type with
      | .allDay => do
          let start_date ← parse_required_date draft.start_date "Start date"
          let end_date ←
            if draft.include_end then
              (parse_optional_date draft.end_date "End date").map
                (fun o => o.getD start_date)
            else pure start_date
          if end_date.civil < start_date.civil then
            throw "End date cannot be before start date."
          else
            pure (mk (.allDay start_date.civil
              (if start_date.civil < end_date.civil then some (end_date.civil + 1) else none)))
      | .timed => do
          let start_date ← parse_required_date draft.start_date "Start date"
          let start_time ← parse_required_time draft.start_time "Start time"
          let start_naive := naive_timestamp start_date start_time
          let start_tz_trimmed := draft.start_tzid.trim
          let res ← resolve_timestamp oracle start_naive start_tz_trimmed "Start time"
          let start_ts := res.1
          let start_tz_tag := res.2
          if draft.include_end then do
            let end_time ← parse_required_time draft.end_time "End time"
            let end_date ←
              if draft.end_date.trim = "" then pure start_date
              else parse_required_date draft.end_date "End date"
            let end_tz_trimmed := draft.end_tzid.trim
            let tz_for_end :=
              if end_tz_trimmed = "" then start_tz_trimmed else end_tz_trimmed
            let res2 ← resolve_timestamp oracle (naive_timestamp end_date end_time)
              tz_for_end "End time"
            if res2.1 < start_ts then
              throw "End time must be after start time."
            else
              pure (mk (.timed start_ts (some res2.1) start_tz_tag
                (if end_tz_trimmed ≠ "" then res2.2 else none)))
          else
            pure (mk (.timed start_ts none start_tz_tag none))

/-- Modelled from the spec: `CalendarEvent::start_naive` lives in `model.rs`;
the spec's §8 determinism note sorts events by start then creation
timestamp.  The start instant of a date span is its first midnight. -/
def CalendarEvent.start_naive (e : CalendarEvent) : Int :=
  match e.time with
  | .allDay d _ => (d : Int) * 86400
  | .timed s _ _ _ => s

/-- The comparison used by `resort_events` (`sort_by_key` on
`(start_naive, created_at)`). -/
def event_order (a b : CalendarEvent) : Bool :=
  decide (a.start_naive < b.start_naive) ||
    (decide (a.start_naive = b.start_naive) && decide (a.created_at ≤ b.created_at))

/-- `CalendarApp::resort_events` (lib.rs 1096-1111); the selected-event
bookkeeping and galley-cache pruning are display-only and omitted. -/
def resort_events (s : CalendarApp) : CalendarApp :=
  { s with events := s.events.mergeSort event_order }

/-- `CalendarApp::submit_event_creation` (lib.rs 1630-1707) restricted to
its effect on the engine collections: the pre-checks reject drafts with a
blank identifier or title or without a signing account, a failed build
leaves the state untouched, and a successful build populates the event's
RSVP list, upserts it and resorts the events (feedback banners, view
switching, database/network submission and the `creation_pending` re-entry
guard are omitted). -/
def submit_event_creation (s : CalendarApp) (draft : CalendarEventDraft)
    (has_account : Bool) (author_hex note_id : String) (note_created_at : Nat)
    (oracle : TzOracle) : CalendarApp :=
  if draft.identifier.trim = "" then s
  else if draft.title.trim = "" then s
  else if !has_account then s
  else
    match build_calendar_event_note draft author_hex note_id note_created_at oracle with
    | .error _ => s
    | .ok event => resort_events (upsert_event s (populate_event_rsvps s event))

/-! ### NIP-73 external content IDs (nostr-0.37.0/src/nips/nip73.rs)

Strings are modelled as character lists so that prefix stripping and
concatenation are structural.  The `Url` payload is the external
`crate::types::Url` (not among the sources); it is modelled as the parsed
value's serialized form, and `Url::parse` as an oracle argument. -/

/-- `HASHTAG` prefix constant. -/
def nipHashtag : List Char := ['#']

/-- `GEOHASH` prefix constant, `geo:`. -/
def nipGeohash : List Char := ['g', 'e', 'o', ':']

/-- `BOOK` prefix constant, `isbn:`. -/
def nipBook : List Char := ['i', 's', 'b', 'n', ':']

/-- `PODCAST_FEED` prefix constant, `podcast:guid:`. -/
def nipPodcastFeed : List Char :=
  ['p', 'o', 'd', 'c', 'a', 's', 't', ':', 'g', 'u', 'i', 'd', ':']

/-- `PODCAST_EPISODE` prefix constant, `podcast:item:guid:`. -/
def nipPodcastEpisode : List Char :=
  ['p', 'o', 'd', 'c', 'a', 's', 't', ':', 'i', 't', 'e', 'm', ':', 'g', 'u', 'i', 'd', ':']

/-- `PODCAST_PUBLISHER` prefix constant, `podcast:publisher:guid:`. -/
def nipPodcastPublisher : List Char :=
  ['p', 'o', 'd', 'c', 'a', 's', 't', ':', 'p', 'u', 'b', 'l', 'i', 's', 'h', 'e', 'r',
   ':', 'g', 'u', 'i', 'd', ':']

/-- `MOVIE` prefix constant, `isan:`. -/
def nipMovie : List Char := ['i', 's', 'a', 'n', ':']

/-- `PAPER` prefix constant, `doi:`. -/
def nipPaper : List Char := ['d', 'o', 'i', ':']

/-- The NIP-73 error type. -/
inductive Nip73Error where
  | invalidExternalContent
deriving DecidableEq, Repr

/-- `ExternalContentId` (nip73.rs 44-63). -/
inductive ExternalContentId where
  | url (u : List Char)
  | hashtag (s : List Char)
  | geohash (s : List Char)
  | book (s : List Char)
  | podcastFeed (s : List Char)
  | podcastEpisode (s : List Char)
  | podcastPublisher (s : List Char)
  | movie (s : List Char)
  | paper (s : List Char)
deriving DecidableEq, Repr

/-- `str::strip_prefix`, structurally on character lists. -/
def stripPre : List Char → List Char → Option (List Char)
  | [], s => some s
  | _ :: _, [] => none
  | p :: ps, c :: cs => if p = c then stripPre ps cs else none

/-- `impl fmt::Display for ExternalContentId` (nip73.rs 65-79). -/
def eciDisplay : ExternalContentId → List Char
  | .url u => u
  | .hashtag s => nipHashtag ++ s
  | .geohash s => nipGeohash ++ s
  | .book s => nipBook ++ s
  | .podcastFeed s => nipPodcastFeed ++ s
  | .podcastEpisode s => nipPodcastEpisode ++ s
  | .podcastPublisher s => nipPodcastPublisher ++ s
  | .movie s => nipMovie ++ s
  | .paper s => nipPaper ++ s

/-- `impl FromStr for ExternalContentId` (nip73.rs 81-123): try each tag
prefix in source order, then fall back to `Url::parse` (the oracle). -/
def eciFromStr (urlParse : List Char → Option (List Char)) (content : List Char) :
    Except Nip73Error ExternalContentId :=
  match stripPre nipHashtag content with
  | some s => .ok (.hashtag s)
  | none =>
    match stripPre nipGeohash content with
    | some s => .ok (.geohash s)
    | none =>
      match stripPre nipBook content with
      | some s => .ok (.book s)
      | none =>
        match stripPre nipPodcastFeed content with
        | some s => .ok (.podcastFeed s)
        | none =>
          match stripPre nipPodcastEpisode content with
          | some s => .ok (.podcastEpisode s)
          | none =>
            match stripPre nipPodcastPublisher content with
            | some s => .ok (.podcastPublisher s)
            | none =>
              match stripPre nipMovie content with
              | some s => .ok (.movie s)
              | none =>
                match stripPre nipPaper content with
                | some s => .ok (.paper s)
                | none =>
                  match urlParse content with
                  | some u => .ok (.url u)
                  | none => .error .invalidExternalContent

/-- The non-URL variants, for which serialize-then-parse is a round trip. -/
def eciNonUrl : ExternalContentId → Prop
  | .url _ => False
  | _ => True

/-! ### C10: NIP-73 round trip -/

/-- C10: for every non-URL `ExternalContentId` (hashtag, geohash, book,
podcast feed/episode/publisher, movie, paper), parsing its serialized form
returns `Ok` of the same value, for any behaviour of the URL parser; and a
string with no recognized tag prefix that the URL parser rejects (such as
"hello") parses to the `InvalidExternalContent` error. -/
theorem eci_roundtrip_and_invalid :
    (∀ (urlParse : List Char → Option (List Char)) (v : ExternalContentId),
        eciNonUrl v → eciFromStr urlParse (eciDisplay v) = .ok v) ∧
    (∀ urlParse : List Char → Option (List Char),
        urlParse "hello".data = none →
        eciFromStr urlParse "hello".data = .error .invalidExternalContent) := by
  have hchars : "hello".data = ['h', 'e', 'l', 'l', 'o'] := rfl
  constructor
  · intro up v hv
    cases v with
    | url u => exact absurd hv (by simp [eciNonUrl])
    | hashtag s =>
        simp [eciDisplay, eciFromStr, nipHashtag, stripPre]
    | geohash s =>
        simp [eciDisplay, eciFromStr, nipHashtag, nipGeohash, stripPre]
    | book s =>
        simp [eciDisplay, eciFromStr, nipHashtag, nipGeohash, nipBook, stripPre]
    | podcastFeed s =>
        simp [eciDisplay, eciFromStr, nipHashtag, nipGeohash, nipBook,
          nipPodcastFeed, stripPre]
    | podcastEpisode s =>
        simp [eciDisplay, eciFromStr, nipHashtag, nipGeohash, nipBook,
          nipPodcastFeed, nipPodcastEpisode, stripPre]
    | podcastPublisher s =>
        simp [eciDisplay, eciFromStr, nipHashtag, nipGeohash, nipBook,
          nipPodcastFeed, nipPodcastEpisode, nipPodcastPublisher, stripPre]
    | movie s =>
        simp [eciDisplay, eciFromStr, nipHashtag, nipGeohash, nipBook,
          nipPodcastFeed, nipPodcastEpisode, nipPodcastPublisher, nipMovie, stripPre]
    | paper s =>
        simp [eciDisplay, eciFromStr, nipHashtag, nipGeohash, nipBook,
          nipPodcastFeed, nipPodcastEpisode, nipPodcastPublisher, nipMovie,
          nipPaper, stripPre]
  · intro up h
    rw [hchars] at h ⊢
    simp [eciFromStr, nipHashtag, nipGeohash, nipBook, nipPodcastFeed,
      nipPodcastEpisode, nipPodcastPublisher, nipMovie, nipPaper, stripPre, h]

/-- C10 witness: the round trip and the error case applied at concrete
inputs ("#rust", and "hello" with a URL parser that rejects everything). -/
theorem eci_roundtrip_and_invalid_witness :
    eciFromStr (fun _ => none) (eciDisplay (.hashtag ['r', 'u', 's', 't'])) =
      .ok (.hashtag ['r', 'u', 's', 't']) ∧
    eciFromStr (fun _ => none) "hello".data = .error .invalidExternalContent := by
  constructor
  · exact eci_roundtrip_and_invalid.1 (fun _ => none) (.hashtag ['r', 'u', 's', 't'])
      trivial
  · exact eci_roundtrip_and_invalid.2 (fun _ => none) rfl


/-! ### Association-list lemmas -/

theorem not_contains_forall {V : Type} {l : List (String × V)} {k : String}
    (hc : l.any (fun p => p.1 == k) = false) : ∀ p ∈ l, p.1 ≠ k := by
  intro p hp hpk
  have : l.any (fun p => p.1 == k) = true :=
    List.any_eq_true.mpr ⟨p, hp, by simp [hpk]⟩
  rw [this] at hc
  exact Bool.true_eq_false.mp hc

theorem find_replace_self {V : Type} (l : List (String × V)) (k : String) (v : V)
    (hc : l.any (fun p => p.1 == k) = true) :
    (l.map (fun p => if p.1 == k then (k, v) else p)).find? (fun p => p.1 == k) =
      some (k, v) := by
  induction l with
  | nil => simp at hc
  | cons p l ih =>
      by_cases hp : p.1 = k
      · rw [List.map_cons, if_pos (by simpa using hp)]
        exact List.find?_cons_of_pos _ (by simp)
      · have hc' : l.any (fun p => p.1 == k) = true := by
          simpa [hp] using hc
        rw [List.map_cons, if_neg (by simpa using hp),
          List.find?_cons_of_neg _ (by simpa using hp)]
        exact ih hc'

theorem find_replace_ne {V : Type} (l : List (String × V)) (k : String) (v : V)
    (k' : String) (h : k' ≠ k) :
    (l.map (fun p => if p.1 == k then (k, v) else p)).find? (fun p => p.1 == k') =
      l.find? (fun p => p.1 == k') := by
  induction l with
  | nil => simp
  | cons p l ih =>
      by_cases hp : p.1 = k
      · rw [List.map_cons, if_pos (by simpa using hp)]
        rw [List.find?_cons_of_neg _ (by simp; exact Ne.symm h)]
        rw [List.find?_cons_of_neg _ (by simp [hp]; exact Ne.symm h)]
        exact ih
      · rw [List.map_cons, if_neg (by simpa using hp)]
        by_cases hp' : p.1 = k'
        · rw [List.find?_cons_of_pos _ (by simpa using hp'),
            List.find?_cons_of_pos _ (by simpa using hp')]
        · rw [List.find?_cons_of_neg _ (by simpa using hp'),
            List.find?_cons_of_neg _ (by simpa using hp')]
          exact ih

theorem afind_ainsert_self {V : Type} (l : List (String × V)) (k : String) (v : V) :
    afind (ainsert l k v) k = some v := by
  unfold afind ainsert
  by_cases hc : l.any (fun p => p.1 == k)
  · rw [if_pos hc, find_replace_self l k v hc]
    rfl
  · rw [if_neg hc]
    have hnone : l.find? (fun p => p.1 == k) = none :=
      List.find?_eq_none.mpr (fun p hp => by
        simpa using not_contains_forall (Bool.eq_false_iff.mpr hc) p hp)
    simp [List.find?_append, hnone]

theorem afind_ainsert_ne {V : Type} (l : List (String × V)) (k k' : String) (v : V)
    (h : k' ≠ k) : afind (ainsert l k v) k' = afind l k' := by
  unfold afind ainsert
  by_cases hc : l.any (fun p => p.1 == k)
  · rw [if_pos hc, find_replace_ne l k v k' h]
  · rw [if_neg hc]
    cases hf : l.find? (fun p => p.1 == k') <;>
      simp [List.find?_append, hf, Ne.symm h]

theorem mem_ainsert {V : Type} {l : List (String × V)} {k : String} {v : V}
    {p : String × V} (h : p ∈ ainsert l k v) : p = (k, v) ∨ (p ∈ l ∧ p.1 ≠ k) := by
  unfold ainsert at h
  by_cases hc : l.any (fun q => q.1 == k)
  · rw [if_pos hc] at h
    rcases List.mem_map.mp h with ⟨q, hq, hfq⟩
    by_cases hqk : q.1 = k
    · left
      rw [← hfq, if_pos (by simpa using hqk)]
    · right
      rw [← hfq, if_neg (by simpa using hqk)]
      exact ⟨hq, hqk⟩
  · rw [if_neg hc] at h
    rcases List.mem_append.mp h with hl | hr
    · exact Or.inr ⟨hl, not_contains_forall (Bool.eq_false_iff.mpr hc) p hl⟩
    · left
      simpa using hr

theorem self_mem_ainsert {V : Type} (l : List (String × V)) (k : String) (v : V) :
    (k, v) ∈ ainsert l k v := by
  unfold ainsert
  by_cases hc : l.any (fun q => q.1 == k)
  · rw [if_pos hc]
    rcases List.any_eq_true.mp hc with ⟨q, hq, hqk⟩
    exact List.mem_map.mpr ⟨q, hq, if_pos hqk⟩
  · rw [if_neg hc]
    exact List.mem_append.mpr (Or.inr (by simp))

theorem ainsert_eq_self {V : Type} {l : List (String × V)} {k : String} {v : V}
    (hall : ∀ p ∈ l, p.1 = k → p = (k, v)) (hc : acontains l k = true) :
    ainsert l k v = l := by
  unfold acontains at hc
  unfold ainsert
  rw [if_pos hc]
  have : l.map (fun p => if p.1 == k then (k, v) else p) = l.map id :=
    List.map_congr_left (fun p hp => by
      by_cases hpk : p.1 = k
      · rw [if_pos (by simpa using hpk)]
        exact ((hall p hp hpk).symm : (k, v) = p)
      · rw [if_neg (by simpa using hpk)]
        rfl)
  rw [this, List.map_id]

theorem ainsert_of_not_contains {V : Type} {l : List (String × V)} {k : String}
    {v : V} (hc : acontains l k = false) : ainsert l k v = l ++ [(k, v)] := by
  unfold acontains at hc
  unfold ainsert
  rw [if_neg (by simp [hc])]

theorem mem_ainsert_key {V : Type} {l : List (String × V)} {k : String} {v : V} :
    ∀ p ∈ ainsert l k v, p.1 = k → p = (k, v) := by
  intro p hp hpk
  rcases mem_ainsert hp with h | ⟨_, hne⟩
  · exact h
  · exact absurd hpk hne

theorem acontains_ainsert_self {V : Type} (l : List (String × V)) (k : String)
    (v : V) : acontains (ainsert l k v) k = true :=
  List.any_eq_true.mpr ⟨(k, v), self_mem_ainsert l k v, by simp⟩

theorem ainsert_idem {V : Type} (l : List (String × V)) (k : String) (v : V) :
    ainsert (ainsert l k v) k v = ainsert l k v :=
  ainsert_eq_self mem_ainsert_key (acontains_ainsert_self l k v)

theorem afind_aerase_self {V : Type} (l : List (String × V)) (k : String) :
    afind (aerase l k) k = none := by
  unfold afind aerase
  rw [List.find?_eq_none.mpr]
  · rfl
  · intro p hp
    have := List.of_mem_filter hp
    simpa using this

theorem aerase_idem {V : Type} (l : List (String × V)) (k : String) :
    aerase (aerase l k) k = aerase l k := by
  unfold aerase
  rw [List.filter_filter]
  simp

theorem mem_avals {V : Type} {l : List (String × V)} {x : V} :
    x ∈ avals l ↔ ∃ p ∈ l, p.2 = x := by
  simp [avals]

theorem mem_avals_ainsert {V : Type} {l : List (String × V)} {k : String} {v : V}
    {x : V} (h : x ∈ avals (ainsert l k v)) : x = v ∨ x ∈ avals l := by
  rcases mem_avals.mp h with ⟨p, hp, hx⟩
  rcases mem_ainsert hp with rfl | ⟨hl, _⟩
  · left
    exact hx.symm
  · right
    exact mem_avals.mpr ⟨p, hl, hx⟩

theorem self_mem_avals_ainsert {V : Type} (l : List (String × V)) (k : String)
    (v : V) : v ∈ avals (ainsert l k v) :=
  mem_avals.mpr ⟨(k, v), self_mem_ainsert l k v, rfl⟩

theorem avals_ainsert_of_not_contains {V : Type} {l : List (String × V)}
    {k : String} {v : V} (hc : acontains l k = false) :
    avals (ainsert l k v) = avals l ++ [v] := by
  rw [ainsert_of_not_contains hc]
  simp [avals]

theorem avals_ainsert_of_bound {V : Type} {l : List (String × V)} {k : String}
    {v : V} (hall : ∀ p ∈ l, p.1 = k → p = (k, v)) (hc : acontains l k = true) :
    avals (ainsert l k v) = avals l := by
  rw [ainsert_eq_self hall hc]

theorem keys_nodup_ainsert {V : Type} {l : List (String × V)} {k : String} {v : V}
    (h : (l.map (fun p => p.1)).Nodup) :
    ((ainsert l k v).map (fun p => p.1)).Nodup := by
  unfold ainsert
  by_cases hc : l.any (fun p => p.1 == k)
  · rw [if_pos hc, List.map_map]
    have : l.map ((fun p => p.1) ∘ (fun p => if p.1 == k then (k, v) else p)) =
        l.map (fun p => p.1) :=
      List.map_congr_left (fun p _ => by
        by_cases hpk : p.1 = k
        · simp [Function.comp, hpk]
        · simp [Function.comp, hpk])
    rw [this]
    exact h
  · rw [if_neg hc, List.map_append]
    rw [List.nodup_append]
    refine ⟨h, by simp, ?_⟩
    intro a ha
    simp only [List.map_cons, List.map_nil, List.mem_singleton]
    intro hak
    subst hak
    rcases List.mem_map.mp ha with ⟨p, hp, hpk⟩
    exact not_contains_forall (Bool.eq_false_iff.mpr hc) p hp hpk

/-! ### C4: calendar-definition upsert -/

/-- C4: upserting a calendar definition keyed by coordinate replaces the
stored definition iff the new one has a strictly greater creation timestamp,
or an equal timestamp and a lexicographically greater id; otherwise the
stored one is kept.  Replacement stores the new definition itself (full
supersede, no field merge), other coordinates are untouched, and a
placeholder (creation timestamp 0) is fully replaced by any definition with
a positive creation timestamp. -/
theorem upsert_calendar_spec (s : CalendarApp) (c : CalendarDefinition) :
    (afind (upsert_calendar s c).calendars c.coordinate =
      some (match afind s.calendars c.coordinate with
            | none => c
            | some old =>
                if old.created_at < c.created_at ∨
                    (c.created_at = old.created_at ∧
                      str_lt old.id_hex c.id_hex = true) then c
                else old)) ∧
    (∀ k, k ≠ c.coordinate →
      afind (upsert_calendar s c).calendars k = afind s.calendars k) ∧
    (∀ old, afind s.calendars c.coordinate = some old →
      old.created_at = 0 → 0 < c.created_at →
      afind (upsert_calendar s c).calendars c.coordinate = some c) := by
  unfold upsert_calendar insert_calendar_entry
  cases hf : afind s.calendars c.coordinate with
  | none =>
      dsimp only
      refine ⟨by rw [afind_ainsert_self], ?_, ?_⟩
      · intro k hk
        exact afind_ainsert_ne _ _ _ _ hk
      · intro old hold
        simp at hold
  | some old =>
      dsimp only
      by_cases hrep : old.created_at < c.created_at ∨
          (c.created_at = old.created_at ∧ str_lt old.id_hex c.id_hex = true)
      · refine ⟨?_, ?_, ?_⟩
        · rw [if_pos hrep, afind_ainsert_self, if_pos hrep]
        · intro k hk
          rw [if_pos hrep]
          exact afind_ainsert_ne _ _ _ _ hk
        · intro old' _ _ _
          rw [if_pos hrep, afind_ainsert_self]
      · refine ⟨?_, ?_, ?_⟩
        · rw [if_neg hrep, if_neg hrep]
          exact hf
        · intro k _
          rw [if_neg hrep]
        · intro old' hold' h0 hpos
          cases hold'
          exact absurd (Or.inl (by omega)) hrep

/-- Concrete placeholder definition used by the C4 witness. -/
def c4_old : CalendarDefinition :=
  placeholder_definition "31924:aa:home" "aa" "home"

/-- Concrete real definition used by the C4 witness. -/
def c4_new : CalendarDefinition :=
  { coordinate := "31924:aa:home", id_hex := "ff01", identifier := "home",
    title := "Home", description := none, author_hex := "aa", created_at := 5 }

/-- Concrete state used by the C4 witness. -/
def c4_state : CalendarApp :=
  { CalendarApp.new with calendars := [("31924:aa:home", c4_old)] }

/-- C4 witness: a stored placeholder (creation timestamp 0) is fully
replaced by the real definition, and an unrelated coordinate is untouched. -/
theorem upsert_calendar_spec_witness :
    afind (upsert_calendar c4_state c4_new).calendars "31924:aa:home" = some c4_new ∧
    afind (upsert_calendar c4_state c4_new).calendars "31924:bb:other" = none := by
  constructor
  · exact (upsert_calendar_spec c4_state c4_new).2.2 c4_old (by decide) (by decide)
      (by decide)
  · rw [(upsert_calendar_spec c4_state c4_new).2.1 "31924:bb:other" (by decide)]
    decide

/-! ### Replaceable-identity helpers -/

theorem eqci_iff (a b : String) :
    eqIgnoreAsciiCase a b = true ↔ a.data.map asciiLower = b.data.map asciiLower := by
  simp [eqIgnoreAsciiCase]

theorem eqci_refl (a : String) : eqIgnoreAsciiCase a a = true := by
  simp [eqIgnoreAsciiCase]

theorem eqci_symm {a b : String} (h : eqIgnoreAsciiCase a b = true) :
    eqIgnoreAsciiCase b a = true :=
  (eqci_iff b a).mpr ((eqci_iff a b).mp h).symm

theorem eqci_trans {a b c : String} (h1 : eqIgnoreAsciiCase a b = true)
    (h2 : eqIgnoreAsciiCase b c = true) : eqIgnoreAsciiCase a c = true :=
  (eqci_iff a c).mpr (((eqci_iff a b).mp h1).trans ((eqci_iff b c).mp h2))

/-- The replaceable-identity relation checked by `find_event_index` for
events with an identifier: same kind, case-insensitively equal identifier,
case-insensitively equal author. -/
def same_identity (a b : CalendarEvent) : Bool :=
  a.kind == b.kind &&
  (match a.identifier, b.identifier with
   | some x, some y => eqIgnoreAsciiCase x y
   | _, _ => false) &&
  eqIgnoreAsciiCase a.author_hex b.author_hex

theorem same_identity_elim {a b : CalendarEvent} (h : same_identity a b = true) :
    a.kind = b.kind ∧
    (∃ x y, a.identifier = some x ∧ b.identifier = some y ∧
      eqIgnoreAsciiCase x y = true) ∧
    eqIgnoreAsciiCase a.author_hex b.author_hex = true := by
  unfold same_identity at h
  cases hx : a.identifier with
  | none => rw [hx] at h; simp at h
  | some x =>
      cases hy : b.identifier with
      | none => rw [hx, hy] at h; simp at h
      | some y =>
          rw [hx, hy] at h
          simp only [Bool.and_eq_true, beq_iff_eq] at h
          exact ⟨h.1.1, ⟨x, y, rfl, rfl, h.1.2⟩, h.2⟩

theorem same_identity_intro {a b : CalendarEvent} (hk : a.kind = b.kind)
    {x y : String} (hx : a.identifier = some x) (hy : b.identifier = some y)
    (hi : eqIgnoreAsciiCase x y = true)
    (ha : eqIgnoreAsciiCase a.author_hex b.author_hex = true) :
    same_identity a b = true := by
  unfold same_identity
  rw [hx, hy]
  simp [hk, hi, ha]

theorem same_identity_symm {a b : CalendarEvent} (h : same_identity a b = true) :
    same_identity b a = true := by
  obtain ⟨hk, ⟨x, y, hx, hy, hi⟩, ha⟩ := same_identity_elim h
  exact same_identity_intro hk.symm hy hx (eqci_symm hi) (eqci_symm ha)

theorem same_identity_trans {a b c : CalendarEvent}
    (h1 : same_identity a b = true) (h2 : same_identity b c = true) :
    same_identity a c = true := by
  obtain ⟨hk1, ⟨x, y, hx, hy, hi1⟩, ha1⟩ := same_identity_elim h1
  obtain ⟨hk2, ⟨y', z, hy', hz, hi2⟩, ha2⟩ := same_identity_elim h2
  rw [hy'] at hy
  cases hy
  exact same_identity_intro (hk1.trans hk2) hx hz (eqci_trans hi1 hi2)
    (eqci_trans ha1 ha2)

theorem find_event_index_eq_findPos (events : List CalendarEvent)
    (event : CalendarEvent) {i : String} (h : event.identifier = some i) :
    find_event_index events event =
      findPos (fun existing => same_identity existing event) events := by
  unfold find_event_index
  rw [h]
  dsimp only
  congr 1
  funext existing
  cases hx : existing.identifier <;> simp [same_identity, h, hx]

/-! ### C1: event upsert is last-write-wins, not newest-wins -/

/-- Concrete event with the larger creation timestamp, for C1. -/
def c1_newer : CalendarEvent :=
  { id_hex := "bb", kind := 31922, author_hex := "aa", identifier := some "i",
    created_at := 200, time := .allDay 0 none, calendars := [], rsvps := [] }

/-- The same replaceable identity with an older creation timestamp, for C1. -/
def c1_older : CalendarEvent :=
  { id_hex := "ab", kind := 31922, author_hex := "aa", identifier := some "i",
    created_at := 100, time := .allDay 0 none, calendars := [], rsvps := [] }

/-- C1 counterexample: upserting an event whose creation timestamp is older
than the stored one does not leave the stored one in place — the older
event replaces the newer one, so the survivor is not the maximum under the
(creation_timestamp, id) order. -/
theorem upsert_event_counterexample :
    (upsert_event (upsert_event CalendarApp.new c1_newer) c1_older).events =
      [c1_older] ∧
    c1_older.created_at < c1_newer.created_at := by
  constructor
  · rfl
  · decide

/-- C1 (amended): for every nonempty sequence of event upserts whose records
share one replaceable identity, starting from an empty events collection,
the surviving event is the most recently upserted one — replacement is
unconditional, with no creation-timestamp or id comparison. -/
theorem upsert_event_last_write_wins :
    ∀ (l : List CalendarEvent) (h : l ≠ []) (e₀ : CalendarEvent),
      (∀ e ∈ l, same_identity e e₀ = true) →
      (l.foldl upsert_event CalendarApp.new).events = [l.getLast h] := by
  have aux : ∀ (l : List CalendarEvent) (e₀ : CalendarEvent),
      (∀ e ∈ l, same_identity e e₀ = true) →
      ∀ (s : CalendarApp) (cur : CalendarEvent), same_identity cur e₀ = true →
      s.events = [cur] →
      (l.foldl upsert_event s).events = [(cur :: l).getLast (by simp)] := by
    intro l
    induction l with
    | nil =>
        intro e₀ _ s cur _ hs
        simpa using hs
    | cons e l ih =>
        intro e₀ hall s cur hcur hs
        have he : same_identity e e₀ = true := hall e (by simp)
        obtain ⟨_, ⟨x, y, hx, hy, _⟩, _⟩ := same_identity_elim he
        have hce : same_identity cur e = true :=
          same_identity_trans hcur (same_identity_symm he)
        have hfind : find_event_index s.events e = some 0 := by
          rw [find_event_index_eq_findPos s.events e hx, hs]
          simp [findPos, hce]
        have hup : (upsert_event s e).events = [e] := by
          unfold upsert_event
          rw [hfind, hs]
          rfl
        have := ih e₀ (fun e' he' => hall e' (by simp [he'])) (upsert_event s e) e
          he hup
        rw [List.foldl_cons, this]
        congr 1
  intro l h e₀ hall
  cases l with
  | nil => exact absurd rfl h
  | cons e l =>
      have he : same_identity e e₀ = true := hall e (by simp)
      obtain ⟨_, ⟨x, y, hx, _, _⟩, _⟩ := same_identity_elim he
      have hfirst : (upsert_event CalendarApp.new e).events = [e] := by
        unfold upsert_event
        cases hfi : find_event_index CalendarApp.new.events e with
        | none => rfl
        | some idx =>
            rw [find_event_index_eq_findPos CalendarApp.new.events e hx] at hfi
            simp [CalendarApp.new, findPos] at hfi
      rw [List.foldl_cons, aux l e₀ (fun e' he' => hall e' (by simp [he']))
        (upsert_event CalendarApp.new e) e he hfirst]

/-- C1 witness: the amended theorem applied to the concrete two-event
sequence of the counterexample — the older, later-arriving event survives. -/
theorem upsert_event_last_write_wins_witness :
    (([c1_newer, c1_older] : List CalendarEvent).foldl upsert_event
      CalendarApp.new).events = [c1_older] := by
  have h := upsert_event_last_write_wins [c1_newer, c1_older] (by simp) c1_newer
    (by decide)
  simpa using h

/-! ### findPos and pairwise-update lemmas -/

theorem findPos_eq_none_iff {α : Type} (p : α → Bool) (l : List α) :
    findPos p l = none ↔ ∀ a ∈ l, p a = false := by
  induction l with
  | nil => simp [findPos]
  | cons a l ih =>
      by_cases hp : p a
      · simp [findPos, hp]
      · simp only [findPos, if_neg hp]
        simp [Option.map_eq_none', ih, Bool.eq_false_iff.mpr hp]

theorem findPos_some_lt {α : Type} {p : α → Bool} {l : List α} {i : Nat}
    (h : findPos p l = some i) : i < l.length := by
  induction l generalizing i with
  | nil => simp [findPos] at h
  | cons a l ih =>
      by_cases hp : p a
      · simp [findPos, hp] at h
        subst h
        simp
      · simp only [findPos, if_neg hp] at h
        rcases Option.map_eq_some'.mp h with ⟨j, hj, rfl⟩
        have := ih hj
        simp only [List.length_cons]
        omega

theorem findPos_some_get {α : Type} {p : α → Bool} {l : List α} {i : Nat}
    (h : findPos p l = some i) (hlt : i < l.length) :
    p (l.get ⟨i, hlt⟩) = true := by
  induction l generalizing i with
  | nil => simp [findPos] at h
  | cons a l ih =>
      by_cases hp : p a
      · simp [findPos, hp] at h
        subst h
        simpa using hp
      · simp only [findPos, if_neg hp] at h
        rcases Option.map_eq_some'.mp h with ⟨j, hj, rfl⟩
        exact ih hj (by simpa using hlt)

theorem findPos_some_before {α : Type} {p : α → Bool} {l : List α} {i : Nat}
    (h : findPos p l = some i) :
    ∀ j, j < i → ∀ (hj : j < l.length), p (l.get ⟨j, hj⟩) = false := by
  induction l generalizing i with
  | nil => simp [findPos] at h
  | cons a l ih =>
      by_cases hp : p a
      · simp [findPos, hp] at h
        subst h
        intro j hj hjl
        exact absurd hj (Nat.not_lt_zero j)
      · simp only [findPos, if_neg hp] at h
        rcases Option.map_eq_some'.mp h with ⟨i', hi', rfl⟩
        intro j hj hjl
        cases j with
        | zero => simpa using Bool.eq_false_iff.mpr hp
        | succ j => exact ih hi' j (by omega) (by simpa using hjl)

theorem pairwise_set_of_rel {α : Type} {R : α → α → Prop} {l : List α} {idx : Nat}
    {b : α} (hR : l.Pairwise R) (hidx : idx < l.length)
    (h1 : ∀ x, R x (l.get ⟨idx, hidx⟩) → R x b)
    (h2 : ∀ x, R (l.get ⟨idx, hidx⟩) x → R b x) :
    (l.set idx b).Pairwise R := by
  rw [List.pairwise_iff_getElem] at hR ⊢
  intro i j hi hj hij
  rw [List.length_set] at hi hj
  rw [List.getElem_set, List.getElem_set]
  by_cases hiidx : idx = i
  · subst hiidx
    rw [if_pos rfl, if_neg (by omega)]
    exact h2 _ (by simpa [List.get_eq_getElem] using hR idx j hi hj hij)
  · rw [if_neg hiidx]
    by_cases hjidx : idx = j
    · subst hjidx
      rw [if_pos rfl]
      exact h1 _ (by simpa [List.get_eq_getElem] using hR i idx hi hj hij)
    · rw [if_neg hjidx]
      exact hR i j hi hj hij

/-! ### C8: uniqueness invariant -/

theorem same_identity_rsvps_left (a b : CalendarEvent) (l : List CalendarRsvp) :
    same_identity { a with rsvps := l } b = same_identity a b := rfl

theorem same_identity_rsvps_right (a b : CalendarEvent) (l : List CalendarRsvp) :
    same_identity a { b with rsvps := l } = same_identity a b := rfl

theorem same_identity_none_right {a b : CalendarEvent} (h : b.identifier = none) :
    same_identity a b = false := by
  unfold same_identity
  cases hx : a.identifier <;> simp [h, hx]

theorem same_identity_none_left {a b : CalendarEvent} (h : a.identifier = none) :
    same_identity a b = false := by
  unfold same_identity
  cases hy : b.identifier <;> simp [h, hy]

/-- At most one live event per replaceable identity. -/
def events_unique (s : CalendarApp) : Prop :=
  s.events.Pairwise (fun a b => same_identity a b = false)

/-- At most one live calendar definition per coordinate (the map's keys are
pairwise distinct). -/
def calendars_unique (s : CalendarApp) : Prop :=
  (s.calendars.map (fun p => p.1)).Nodup

/-- The uniqueness invariant of spec §3. -/
def uniqueness_invariant (s : CalendarApp) : Prop :=
  events_unique s ∧ calendars_unique s

theorem events_unique_upsert {s : CalendarApp} (h : events_unique s)
    (event : CalendarEvent) : events_unique (upsert_event s event) := by
  unfold events_unique at h ⊢
  unfold upsert_event
  cases hid : event.identifier with
  | none =>
      cases hfi : find_event_index s.events event with
      | none =>
          dsimp only
          rw [List.pairwise_append]
          exact ⟨h, by simp, fun a _ b hb => by
            rw [List.mem_singleton] at hb
            subst hb
            exact same_identity_none_right hid⟩
      | some idx =>
          dsimp only
          have hlt : idx < s.events.length := by
            unfold find_event_index at hfi
            rw [hid] at hfi
            exact findPos_some_lt hfi
          exact pairwise_set_of_rel h hlt
            (fun x _ => same_identity_none_right hid)
            (fun x _ => same_identity_none_left hid)
  | some i =>
      rw [find_event_index_eq_findPos s.events event hid]
      cases hfi : findPos (fun existing => same_identity existing event) s.events with
      | none =>
          dsimp only
          rw [List.pairwise_append]
          refine ⟨h, by simp, fun a ha b hb => ?_⟩
          rw [List.mem_singleton] at hb
          subst hb
          exact (findPos_eq_none_iff _ _).mp hfi a ha
      | some idx =>
          dsimp only
          have hlt : idx < s.events.length := findPos_some_lt hfi
          have hpred : same_identity (s.events.get ⟨idx, hlt⟩) event = true :=
            findPos_some_get hfi hlt
          refine pairwise_set_of_rel h hlt ?_ ?_
          · intro x hx
            cases hxe : same_identity x event with
            | false => rfl
            | true =>
                have htr : same_identity x (s.events.get ⟨idx, hlt⟩) = true :=
                  same_identity_trans hxe (same_identity_symm hpred)
                rw [hx] at htr
                cases htr
          · intro x hx
            cases hex : same_identity event x with
            | false => rfl
            | true =>
                have htr : same_identity (s.events.get ⟨idx, hlt⟩) x = true :=
                  same_identity_trans hpred hex
                rw [hx] at htr
                cases htr

theorem upsert_event_calendars (s : CalendarApp) (e : CalendarEvent) :
    (upsert_event s e).calendars = s.calendars := by
  unfold upsert_event
  cases find_event_index s.events e <;> rfl

theorem placeholder_fold_nodup (coords : List String)
    (m : List (String × CalendarDefinition)) (h : (m.map (fun p => p.1)).Nodup) :
    ((coords.foldl placeholder_step m).map (fun p => p.1)).Nodup := by
  induction coords generalizing m with
  | nil => simpa using h
  | cons c cs ih =>
      rw [List.foldl_cons]
      apply ih
      unfold placeholder_step
      by_cases hc : acontains m c
      · simpa [hc] using h
      · rw [if_neg hc]
        cases hp : parse_calendar_coordinate c with
        | none => exact h
        | some pr =>
            obtain ⟨a, i⟩ := pr
            exact keys_nodup_ainsert h

theorem events_unique_apply_rsvp {s : CalendarApp} (h : events_unique s)
    (r : CalendarRsvp) : events_unique (apply_rsvp s r) := by
  unfold events_unique at h ⊢
  unfold apply_rsvp
  dsimp only
  refine List.Pairwise.map _ (fun a b hab => ?_) h
  by_cases hma : r.matches_event a <;> by_cases hmb : r.matches_event b <;>
    simp [hma, hmb, same_identity_rsvps_left, same_identity_rsvps_right, hab]

theorem calendars_unique_insert_entry {m : List (String × CalendarDefinition)}
    (h : (m.map (fun p => p.1)).Nodup) (c : CalendarDefinition) :
    ((insert_calendar_entry m c).map (fun p => p.1)).Nodup := by
  unfold insert_calendar_entry
  cases afind m c.coordinate with
  | none => exact keys_nodup_ainsert h
  | some old =>
      dsimp only
      by_cases hrep : old.created_at < c.created_at ∨
          (c.created_at = old.created_at ∧ str_lt old.id_hex c.id_hex = true)
      · rw [if_pos hrep]
        exact keys_nodup_ainsert h
      · rw [if_neg hrep]
        exact h

theorem events_unique_submit {s : CalendarApp} (h : events_unique s)
    (idx : Nat) (event : CalendarEvent) (status : RsvpStatus)
    (attendee id : String) (created : Nat) :
    events_unique (submit_rsvp s idx event status attendee id created) := by
  unfold events_unique at h ⊢
  unfold submit_rsvp
  cases event.identifier with
  | none => exact h
  | some i =>
      dsimp only
      cases hg : s.events.get? idx with
      | none => exact h
      | some e =>
          obtain ⟨hlt, hget⟩ := List.get?_eq_some.mp hg
          refine pairwise_set_of_rel h hlt ?_ ?_
          · intro x hx
            rw [hget] at hx
            rw [same_identity_rsvps_right]
            exact hx
          · intro x hx
            rw [hget] at hx
            rw [same_identity_rsvps_left]
            exact hx

/-- C8: every mutating operation — ingest of an event, a calendar
definition or an RSVP, and local RSVP submission — preserves the
uniqueness invariant: at most one live event per replaceable identity
(kind, case-insensitive identifier and author) and at most one live
calendar definition per coordinate. -/
theorem uniqueness_invariant_preserved (s : CalendarApp) (op : Op)
    (h : uniqueness_invariant s) : uniqueness_invariant (step s op) := by
  obtain ⟨he, hc⟩ := h
  cases op with
  | note r =>
      cases r with
      | ev e =>
          constructor
          · exact events_unique_upsert he (populate_event_rsvps s e)
          · show ((ensure_calendar_placeholders
                (upsert_event s (populate_event_rsvps s e))).calendars.map
                (fun p => p.1)).Nodup
            unfold ensure_calendar_placeholders
            dsimp only
            apply placeholder_fold_nodup
            rw [upsert_event_calendars]
            exact hc
      | cal c =>
          exact ⟨he, calendars_unique_insert_entry hc c⟩
      | rsvp r =>
          exact ⟨events_unique_apply_rsvp he r, by
            show ((apply_rsvp s r).calendars.map (fun p => p.1)).Nodup
            unfold apply_rsvp
            exact hc⟩
  | submit idx event status attendee id created =>
      refine ⟨events_unique_submit he idx event status attendee id created, ?_⟩
      show ((submit_rsvp s idx event status attendee id created).calendars.map
        (fun p => p.1)).Nodup
      unfold submit_rsvp
      cases event.identifier with
      | none => exact hc
      | some i => exact hc

/-- C8 witness: the invariant is preserved by ingesting a concrete event
into the empty state. -/
theorem uniqueness_invariant_preserved_witness :
    uniqueness_invariant (step CalendarApp.new (.note (.ev c1_newer))) :=
  uniqueness_invariant_preserved CalendarApp.new (.note (.ev c1_newer))
    ⟨List.Pairwise.nil, List.nodup_nil⟩

/-! ### Association-recompute characterization -/

theorem mem_match_rsvps (event : CalendarEvent) (rs : List CalendarRsvp)
    (r : CalendarRsvp) :
    r ∈ match_rsvps_for_event event rs ↔
      r ∈ rs ∧ r.matches_event event = true ∧
      ∀ x ∈ rs, x.matches_event event = true →
        x.attendee_hex = r.attendee_hex → newer_than x r = false := by
  unfold match_rsvps_for_event
  constructor
  · intro h
    obtain ⟨hm, hpred⟩ := List.mem_filter.mp h
    obtain ⟨hrs, hmatch⟩ := List.mem_filter.mp hm
    refine ⟨hrs, hmatch, ?_⟩
    intro x hx hxm hatt
    rw [Bool.not_eq_true'] at hpred
    cases hnew : newer_than x r with
    | false => rfl
    | true =>
        have hany : (rs.filter (fun r => r.matches_event event)).any
            (fun y => y.attendee_hex == r.attendee_hex && newer_than y r) = true :=
          List.any_eq_true.mpr ⟨x, List.mem_filter.mpr ⟨hx, hxm⟩,
            by simp [hatt, hnew]⟩
        rw [hany] at hpred
        cases hpred
  · rintro ⟨hrs, hmatch, hsup⟩
    apply List.mem_filter.mpr
    refine ⟨List.mem_filter.mpr ⟨hrs, hmatch⟩, ?_⟩
    rw [Bool.not_eq_true']
    cases hany : (rs.filter (fun r => r.matches_event event)).any
        (fun y => y.attendee_hex == r.attendee_hex && newer_than y r) with
    | false => rfl
    | true =>
        exfalso
        obtain ⟨x, hx, hfx⟩ := List.any_eq_true.mp hany
        simp only [Bool.and_eq_true] at hfx
        obtain ⟨hx1, hx2⟩ := hfx
        obtain ⟨hxs, hxm⟩ := List.mem_filter.mp hx
        have := hsup x hxs hxm (by simpa using hx1)
        rw [this] at hx2
        cases hx2

theorem match_rsvps_relevant (event : CalendarEvent)
    (all : List (String × CalendarRsvp)) :
    match_rsvps_for_event event (relevant_rsvps_for all event) =
      match_rsvps_for_event event (avals all) := by
  unfold match_rsvps_for_event relevant_rsvps_for
  have hff : ((avals all).filter (fun r => r.matches_event event)).filter
        (fun r => r.matches_event event) =
      (avals all).filter (fun r => r.matches_event event) := by
    rw [List.filter_filter]
    simp only [Bool.and_self]
  rw [hff]

theorem match_rsvps_sublist (event : CalendarEvent) (rs : List CalendarRsvp) :
    (match_rsvps_for_event event rs).Sublist rs := by
  unfold match_rsvps_for_event
  exact (List.filter_sublist _).trans (List.filter_sublist _)

theorem matches_event_rsvps_update (r : CalendarRsvp) (e : CalendarEvent)
    (l : List CalendarRsvp) :
    r.matches_event { e with rsvps := l } = r.matches_event e := rfl

/-! ### Well-formed RSVP maps -/

/-- Well-formedness of the confirmed-RSVP map: distinct keys, and every
binding keyed by its record's id (the engine only ever inserts at
`rsvp.id_hex`). -/
def rsvps_wf (m : List (String × CalendarRsvp)) : Prop :=
  (m.map (fun p => p.1)).Nodup ∧ ∀ p ∈ m, p.2.id_hex = p.1

theorem rsvps_wf_ainsert {m : List (String × CalendarRsvp)} (h : rsvps_wf m)
    (r : CalendarRsvp) : rsvps_wf (ainsert m r.id_hex r) := by
  refine ⟨keys_nodup_ainsert h.1, ?_⟩
  intro p hp
  rcases mem_ainsert hp with rfl | ⟨hm, _⟩
  · rfl
  · exact h.2 p hm

theorem rsvps_wf_vals_map_id (m : List (String × CalendarRsvp)) (h : rsvps_wf m) :
    ((avals m).map (fun r => r.id_hex)).Nodup := by
  have h1 : m.map (fun p => p.2.id_hex) = m.map (fun p => p.1) :=
    List.map_congr_left (fun p hp => h.2 p hp)
  have h2 : (avals m).map (fun r => r.id_hex) = m.map (fun p => p.2.id_hex) := by
    simp [avals, List.map_map]
  rw [h2, h1]
  exact h.1

theorem rsvps_wf_vals_nodup {m : List (String × CalendarRsvp)} (h : rsvps_wf m) :
    (avals m).Nodup :=
  List.Nodup.of_map _ (rsvps_wf_vals_map_id m h)

theorem rsvps_wf_vals_id_inj {m : List (String × CalendarRsvp)} (h : rsvps_wf m)
    {x y : CalendarRsvp} (hx : x ∈ avals m) (hy : y ∈ avals m)
    (hid : x.id_hex = y.id_hex) : x = y :=
  List.inj_on_of_nodup_map (rsvps_wf_vals_map_id m h) hx hy hid

/-! ### C3: ingesting a confirmed RSVP -/

/-- C3: `apply_rsvp` inserts the RSVP into the confirmed map under its
record id (last write wins), removes any pending RSVP with that id, and
recomputes the association list of every event the RSVP matches against
the updated confirmed map (membership characterized as: a matching
confirmed RSVP not superseded by a strictly newer one from the same
attendee); afterwards the pending map has no binding for the id and the
RSVP appears at most once in every event's association list. -/
theorem apply_rsvp_spec (s : CalendarApp) (r : CalendarRsvp)
    (hwf : rsvps_wf s.all_rsvps) (hnd : ∀ e ∈ s.events, e.rsvps.Nodup) :
    afind (apply_rsvp s r).all_rsvps r.id_hex = some r ∧
    afind (apply_rsvp s r).pending_rsvps r.id_hex = none ∧
    (∀ i e, s.events.get? i = some e → r.matches_event e = true →
      ∃ e', (apply_rsvp s r).events.get? i = some e' ∧
        ∀ x, x ∈ e'.rsvps ↔
          (x ∈ avals (apply_rsvp s r).all_rsvps ∧ x.matches_event e = true ∧
           ∀ y ∈ avals (apply_rsvp s r).all_rsvps, y.matches_event e = true →
             y.attendee_hex = x.attendee_hex → newer_than y x = false)) ∧
    (∀ e ∈ (apply_rsvp s r).events, e.rsvps.count r ≤ 1) := by
  have hwf' : rsvps_wf (ainsert s.all_rsvps r.id_hex r) := rsvps_wf_ainsert hwf r
  refine ⟨afind_ainsert_self _ _ _, afind_aerase_self _ _, ?_, ?_⟩
  · intro i e hi hm
    refine ⟨{ e with rsvps := (match_rsvps_for_event e
        (relevant_rsvps_for (ainsert s.all_rsvps r.id_hex r) e)) }, ?_, ?_⟩
    · show (s.events.map _).get? i = _
      rw [List.get?_map, hi]
      simp only [Option.map_some']
      rw [if_pos hm]
    · intro x
      show x ∈ match_rsvps_for_event e
        (relevant_rsvps_for (ainsert s.all_rsvps r.id_hex r) e) ↔ _
      rw [match_rsvps_relevant]
      exact mem_match_rsvps e _ x
  · intro e' he'
    rcases List.mem_map.mp he' with ⟨e, he, hfe⟩
    by_cases hm : r.matches_event e
    · rw [← hfe, if_pos hm]
      apply List.nodup_iff_count_le_one.mp
      show (match_rsvps_for_event e
        (relevant_rsvps_for (ainsert s.all_rsvps r.id_hex r) e)).Nodup
      rw [match_rsvps_relevant]
      exact List.Nodup.sublist (match_rsvps_sublist e _) (rsvps_wf_vals_nodup hwf')
    · rw [← hfe, if_neg hm]
      exact List.nodup_iff_count_le_one.mp (hnd e he) r

/-- Concrete event used by the C3 witness. -/
def c3_event : CalendarEvent :=
  { id_hex := "e1", kind := 31923, author_hex := "aa", identifier := some "i1",
    created_at := 10, time := .timed 0 none none none, calendars := [], rsvps := [] }

/-- Concrete RSVP used by the C3 witness (same id as the pending copy). -/
def c3_rsvp : CalendarRsvp :=
  { id_hex := "r1", attendee_hex := "bb", status := .accepted, created_at := 5,
    coordinate_kind := some 31923, coordinate_author_hex := some "aa",
    coordinate_identifier := some "i1", event_id_hex := some "e1" }

/-- Concrete state used by the C3 witness: one event, one pending RSVP with
the same id as the incoming confirmed RSVP, empty confirmed map. -/
def c3_state : CalendarApp :=
  { events := [c3_event], calendars := [], all_rsvps := [],
    pending_rsvps := [("r1", c3_rsvp)] }

/-- C3 witness: ingesting the confirmed copy stores it under its id and
removes the pending copy with that id. -/
theorem apply_rsvp_spec_witness :
    afind (apply_rsvp c3_state c3_rsvp).all_rsvps "r1" = some c3_rsvp ∧
    afind (apply_rsvp c3_state c3_rsvp).pending_rsvps "r1" = none := by
  have h := apply_rsvp_spec c3_state c3_rsvp ⟨by simp [c3_state], by simp [c3_state]⟩ (by decide)
  exact ⟨h.1, h.2.1⟩

/-! ### C2: the association relation -/

/-- The amended association relation: `x` is a confirmed RSVP matching the
event that no strictly newer confirmed RSVP from the same attendee also
matching the event supersedes. -/
def newest_matching (all : List (String × CalendarRsvp)) (e : CalendarEvent)
    (x : CalendarRsvp) : Prop :=
  x ∈ avals all ∧ x.matches_event e = true ∧
  ∀ y ∈ avals all, y.matches_event e = true →
    y.attendee_hex = x.attendee_hex → newer_than y x = false

/-- The per-event association invariant (positional form). -/
def assoc_invariant (s : CalendarApp) : Prop :=
  ∀ i e, s.events.get? i = some e →
    ∀ x : CalendarRsvp, x ∈ e.rsvps ↔ newest_matching s.all_rsvps e x

/-- Input consistency for one operation: an incoming RSVP id only rebinds
to an identical record (record ids are content hashes), and a local
submission targets the event actually stored at the given index, in a
state with pairwise distinct event ids and unique replaceable identities. -/
def op_ok (s : CalendarApp) : Op → Prop
  | .note (.ev _) => True
  | .note (.cal _) => True
  | .note (.rsvp r) => ∀ p ∈ s.all_rsvps, p.1 = r.id_hex → p.2 = r
  | .submit idx event status attendee id created =>
      s.events.get? idx = some event ∧
      (∀ p ∈ s.all_rsvps, p.1 = id →
        p.2 = mk_local_rsvp event status attendee id created) ∧
      (s.events.map (fun e => e.id_hex)).Nodup ∧
      events_unique s

theorem newest_matching_ainsert_not_matching {all : List (String × CalendarRsvp)}
    {r : CalendarRsvp} (hok : ∀ p ∈ all, p.1 = r.id_hex → p.2 = r)
    {e : CalendarEvent} (hnm : r.matches_event e = false) (x : CalendarRsvp) :
    newest_matching (ainsert all r.id_hex r) e x ↔ newest_matching all e x := by
  by_cases hc : acontains all r.id_hex
  · have heq : ainsert all r.id_hex r = all :=
      ainsert_eq_self (fun p hp hpk => by
        have h2 := hok p hp hpk
        cases p
        simp_all) hc
    rw [heq]
  · unfold newest_matching
    rw [avals_ainsert_of_not_contains (Bool.eq_false_iff.mpr hc)]
    simp only [List.mem_append, List.mem_singleton]
    constructor
    · rintro ⟨hx | hx, hm, hsup⟩
      · exact ⟨hx, hm, fun y hy hym hatt => hsup y (Or.inl hy) hym hatt⟩
      · subst hx
        rw [hnm] at hm
        cases hm
    · rintro ⟨hx, hm, hsup⟩
      refine ⟨Or.inl hx, hm, ?_⟩
      rintro y (hy | rfl) hym hatt
      · exact hsup y hy hym hatt
      · rw [hnm] at hym
        cases hym

theorem mem_populate_iff (s : CalendarApp) (e : CalendarEvent) (x : CalendarRsvp) :
    x ∈ (populate_event_rsvps s e).rsvps ↔ newest_matching s.all_rsvps e x := by
  show x ∈ match_rsvps_for_event e (relevant_rsvps_for s.all_rsvps e) ↔ _
  rw [match_rsvps_relevant]
  exact mem_match_rsvps e _ x

theorem upsert_event_all_rsvps (s : CalendarApp) (e : CalendarEvent) :
    (upsert_event s e).all_rsvps = s.all_rsvps := by
  unfold upsert_event
  cases find_event_index s.events e <;> rfl

theorem same_identity_false_symm {a b : CalendarEvent}
    (h : same_identity a b = false) : same_identity b a = false := by
  cases hc : same_identity b a with
  | false => rfl
  | true =>
      rw [same_identity_symm hc] at h
      cases h

theorem find_event_index_lt {evs : List CalendarEvent} {e : CalendarEvent}
    {idx : Nat} (h : find_event_index evs e = some idx) : idx < evs.length := by
  unfold find_event_index at h
  cases hid : e.identifier with
  | none =>
      rw [hid] at h
      exact findPos_some_lt h
  | some i =>
      rw [hid] at h
      exact findPos_some_lt h

theorem assoc_inv_ingest_event {s : CalendarApp} (hinv : assoc_invariant s)
    (e : CalendarEvent) : assoc_invariant (ingest_event s e) := by
  intro i e' hi x
  have hi' : (upsert_event s (populate_event_rsvps s e)).events.get? i = some e' := hi
  have hall : (ingest_event s e).all_rsvps = s.all_rsvps :=
    upsert_event_all_rsvps s (populate_event_rsvps s e)
  rw [hall]
  unfold upsert_event at hi'
  cases hfi : find_event_index s.events (populate_event_rsvps s e) with
  | some idx =>
      rw [hfi] at hi'
      dsimp only at hi'
      by_cases hii : i = idx
      · subst hii
        have hlt : i < s.events.length := find_event_index_lt hfi
        rw [List.get?_set_eq_of_lt _ hlt] at hi'
        cases hi'
        exact mem_populate_iff s e x
      · rw [List.get?_set_ne _ _ (Ne.symm hii)] at hi'
        exact hinv i e' hi' x
  | none =>
      rw [hfi] at hi'
      dsimp only at hi'
      by_cases hlen : i < s.events.length
      · rw [List.get?_append hlen] at hi'
        exact hinv i e' hi' x
      · rw [List.get?_append_right (Nat.le_of_not_lt hlen)] at hi'
        cases hd : i - s.events.length with
        | zero =>
            rw [hd] at hi'
            cases hi'
            exact mem_populate_iff s e x
        | succ n =>
            rw [hd] at hi'
            simp at hi'

theorem assoc_inv_apply_rsvp {s : CalendarApp} {r : CalendarRsvp}
    (hok : ∀ p ∈ s.all_rsvps, p.1 = r.id_hex → p.2 = r)
    (hinv : assoc_invariant s) : assoc_invariant (apply_rsvp s r) := by
  intro i e' hi x
  have hi' : (s.events.map (fun e =>
      if r.matches_event e then
        { e with rsvps := (match_rsvps_for_event e
            (relevant_rsvps_for (ainsert s.all_rsvps r.id_hex r) e)) }
      else e)).get? i = some e' := hi
  rw [List.get?_map] at hi'
  obtain ⟨e, he, hfe⟩ := Option.map_eq_some'.mp hi'
  show x ∈ e'.rsvps ↔ newest_matching (ainsert s.all_rsvps r.id_hex r) e' x
  by_cases hm : r.matches_event e
  · rw [if_pos hm] at hfe
    subst hfe
    show x ∈ match_rsvps_for_event e
        (relevant_rsvps_for (ainsert s.all_rsvps r.id_hex r) e) ↔ _
    rw [match_rsvps_relevant]
    exact mem_match_rsvps e _ x
  · rw [if_neg hm] at hfe
    subst hfe
    exact (hinv i e he x).trans
      (newest_matching_ainsert_not_matching hok (Bool.eq_false_iff.mpr hm) x).symm

theorem local_rsvp_matches_only {s : CalendarApp}
    (hids : (s.events.map (fun e => e.id_hex)).Nodup)
    (huniq : events_unique s) {idx i : Nat} {event e' : CalendarEvent}
    (hget : s.events.get? idx = some event) (hi : s.events.get? i = some e')
    (hne : i ≠ idx) {idty : String} (hid : event.identifier = some idty)
    (status : RsvpStatus) (attendee id : String) (created : Nat) :
    (mk_local_rsvp event status attendee id created).matches_event e' = false := by
  obtain ⟨hlt_i, hget_i⟩ := List.get?_eq_some.mp hi
  obtain ⟨hlt_x, hget_x⟩ := List.get?_eq_some.mp hget
  have hdiff : event.id_hex ≠ e'.id_hex := by
    intro heq
    apply hne
    apply fun (h2 : (s.events.map (fun e => e.id_hex)).get? i =
        (s.events.map (fun e => e.id_hex)).get? idx) =>
      List.get?_inj (by simpa using hlt_i) (by exact hids) h2
    rw [List.get?_map, List.get?_map, hi, hget]
    simp [heq]
  have hsame : same_identity e' event = false := by
    have huniq' := huniq
    rw [events_unique, List.pairwise_iff_get] at huniq'
    rcases Nat.lt_or_ge i idx with hltc | hge
    · have h2 := huniq' ⟨i, hlt_i⟩ ⟨idx, hlt_x⟩ (by simpa using hltc)
      rw [hget_i, hget_x] at h2
      exact h2
    · have hgt : idx < i := by omega
      have h2 := huniq' ⟨idx, hlt_x⟩ ⟨i, hlt_i⟩ (by simpa using hgt)
      rw [hget_i, hget_x] at h2
      exact same_identity_false_symm h2
  cases hm : (mk_local_rsvp event status attendee id created).matches_event e' with
  | false => rfl
  | true =>
      exfalso
      unfold CalendarRsvp.matches_event at hm
      dsimp only [mk_local_rsvp] at hm
      rw [hid] at hm
      cases hei : e'.identifier with
      | none =>
          rw [hei] at hm
          dsimp only at hm
          simp only [Bool.or_false, beq_iff_eq] at hm
          exact hdiff hm
      | some ei =>
          rw [hei] at hm
          dsimp only at hm
          simp only [Bool.or_eq_true, Bool.and_eq_true, beq_iff_eq] at hm
          rcases hm with hm | ⟨⟨hk, ha⟩, hident⟩
          · exact hdiff hm
          · have hts : same_identity e' event = true :=
              same_identity_intro hk.symm hei hid
                (by rw [← hident]; exact eqci_refl idty)
                (by rw [← ha]; exact eqci_refl event.author_hex)
            rw [hts] at hsame
            cases hsame

theorem assoc_inv_submit {s : CalendarApp} {idx : Nat} {event : CalendarEvent}
    {status : RsvpStatus} {attendee id : String} {created : Nat}
    (hget : s.events.get? idx = some event)
    (hok2 : ∀ p ∈ s.all_rsvps, p.1 = id →
      p.2 = mk_local_rsvp event status attendee id created)
    (hids : (s.events.map (fun e => e.id_hex)).Nodup)
    (huniq : events_unique s) (hinv : assoc_invariant s) :
    assoc_invariant (submit_rsvp s idx event status attendee id created) := by
  cases hid : event.identifier with
  | none =>
      have hs : submit_rsvp s idx event status attendee id created = s := by
        unfold submit_rsvp
        rw [hid]
      rw [hs]
      exact hinv
  | some idty =>
      have hstep_all : (submit_rsvp s idx event status attendee id created).all_rsvps =
          ainsert s.all_rsvps id (mk_local_rsvp event status attendee id created) := by
        unfold submit_rsvp
        rw [hid]
        rfl
      have hstep_events : (submit_rsvp s idx event status attendee id created).events =
          s.events.set idx { event with rsvps := (match_rsvps_for_event event
            (relevant_rsvps_for
              (ainsert s.all_rsvps id (mk_local_rsvp event status attendee id created))
              event)) } := by
        unfold submit_rsvp
        rw [hid]
        dsimp only
        rw [hget]
        dsimp only
        rw [hid]
        rfl
      intro i e' hi x
      rw [hstep_events] at hi
      rw [hstep_all]
      obtain ⟨hlt_x, _⟩ := List.get?_eq_some.mp hget
      by_cases hii : i = idx
      · subst hii
        rw [List.get?_set_eq_of_lt _ hlt_x] at hi
        cases hi
        show x ∈ match_rsvps_for_event event
            (relevant_rsvps_for
              (ainsert s.all_rsvps id (mk_local_rsvp event status attendee id created))
              event) ↔ _
        rw [match_rsvps_relevant]
        exact mem_match_rsvps event _ x
      · rw [List.get?_set_ne _ _ (Ne.symm hii)] at hi
        have hnm := local_rsvp_matches_only hids huniq hget hi hii hid
          status attendee id created
        exact (hinv i e' hi x).trans
          (newest_matching_ainsert_not_matching hok2 hnm x).symm

/-- Concrete event used by the C2 counterexample. -/
def c2_event : CalendarEvent :=
  { id_hex := "e1", kind := 31923, author_hex := "aa", identifier := some "i1",
    created_at := 10, time := .timed 0 none none none, calendars := [], rsvps := [] }

/-- Older RSVP from attendee "bb", for the C2 counterexample. -/
def c2_old : CalendarRsvp :=
  { id_hex := "r1", attendee_hex := "bb", status := .accepted, created_at := 5,
    coordinate_kind := some 31923, coordinate_author_hex := some "aa",
    coordinate_identifier := some "i1", event_id_hex := some "e1" }

/-- Newer RSVP from the same attendee, for the C2 counterexample. -/
def c2_new : CalendarRsvp :=
  { id_hex := "r2", attendee_hex := "bb", status := .declined, created_at := 6,
    coordinate_kind := some 31923, coordinate_author_hex := some "aa",
    coordinate_identifier := some "i1", event_id_hex := some "e1" }

/-- Concrete single-event state for the C2 counterexample. -/
def c2_state : CalendarApp :=
  { events := [c2_event], calendars := [], all_rsvps := [], pending_rsvps := [] }

/-- C2 counterexample: after ingesting two RSVPs from the same attendee that
both match the stored event, the older one is a confirmed RSVP that matches
the event yet appears in no event's association list — the claimed
"appears iff matches" equivalence fails. -/
theorem rsvp_assoc_iff_counterexample :
    c2_old.matches_event c2_event = true ∧
    c2_old ∈ avals (apply_rsvp (apply_rsvp c2_state c2_old) c2_new).all_rsvps ∧
    ∀ e ∈ (apply_rsvp (apply_rsvp c2_state c2_old) c2_new).events,
      c2_old ∉ e.rsvps := by
  decide

/-- C2 (amended): after every mutating operation on id-consistent inputs, a
confirmed RSVP `x` appears in a stored event's association list iff `x`
matches the event and no strictly newer (by creation timestamp, then id)
confirmed RSVP from the same attendee also matches it. -/
theorem rsvp_assoc_newest_invariant (s : CalendarApp) (op : Op)
    (hok : op_ok s op) (hinv : assoc_invariant s) :
    assoc_invariant (step s op) := by
  cases op with
  | note r =>
      cases r with
      | ev e => exact assoc_inv_ingest_event hinv e
      | cal c => exact fun i e hi x => hinv i e hi x
      | rsvp r => exact assoc_inv_apply_rsvp hok hinv
  | submit idx event status attendee id created =>
      obtain ⟨hget, hok2, hids, huniq⟩ := hok
      exact assoc_inv_submit hget hok2 hids huniq hinv

/-- C2 witness: the amended invariant established by applying the theorem
to a concrete RSVP ingest into a concrete single-event state. -/
theorem rsvp_assoc_newest_invariant_witness :
    assoc_invariant (step c2_state (.note (.rsvp c2_old))) := by
  apply rsvp_assoc_newest_invariant c2_state (.note (.rsvp c2_old))
  · intro p hp
    simp [c2_state] at hp
  · intro i e hi x
    cases i with
    | zero =>
        have he : e = c2_event := by
          simpa [c2_state] using hi.symm
        subst he
        constructor
        · intro hx
          simp [c2_event] at hx
        · rintro ⟨hx, _, _⟩
          simp [c2_state, avals] at hx
    | succ n =>
        simp [c2_state] at hi

/-! ### C6/C7: local RSVP submission -/

theorem submit_rsvp_all_rsvps_eq {s : CalendarApp} {idx : Nat}
    {event : CalendarEvent} {status : RsvpStatus} {attendee id : String}
    {created : Nat} {idty : String} (hid : event.identifier = some idty) :
    (submit_rsvp s idx event status attendee id created).all_rsvps =
      ainsert s.all_rsvps id (mk_local_rsvp event status attendee id created) := by
  unfold submit_rsvp
  rw [hid]
  rfl

theorem submit_rsvp_pending_eq {s : CalendarApp} {idx : Nat}
    {event : CalendarEvent} {status : RsvpStatus} {attendee id : String}
    {created : Nat} {idty : String} (hid : event.identifier = some idty) :
    (submit_rsvp s idx event status attendee id created).pending_rsvps =
      ainsert s.pending_rsvps id (mk_local_rsvp event status attendee id created) := by
  unfold submit_rsvp
  rw [hid]
  rfl

theorem submit_rsvp_events_eq {s : CalendarApp} {idx : Nat}
    {event : CalendarEvent} {status : RsvpStatus} {attendee id : String}
    {created : Nat} {idty : String} (hid : event.identifier = some idty)
    (hget : s.events.get? idx = some event) :
    (submit_rsvp s idx event status attendee id created).events =
      s.events.set idx { event with rsvps := (match_rsvps_for_event event
        (relevant_rsvps_for
          (ainsert s.all_rsvps id (mk_local_rsvp event status attendee id created))
          event)) } := by
  unfold submit_rsvp
  rw [hid]
  dsimp only
  rw [hget]
  dsimp only
  rw [hid]
  rfl

theorem chars_lt_irrefl (l : List Char) : chars_lt l l = false := by
  induction l with
  | nil => rfl
  | cons a as ih => simp [chars_lt, ih]

theorem newer_than_self (r : CalendarRsvp) : newer_than r r = false := by
  simp [newer_than, str_lt, chars_lt_irrefl]

theorem mk_local_matches_self (event : CalendarEvent) (status : RsvpStatus)
    (attendee id : String) (created : Nat) :
    (mk_local_rsvp event status attendee id created).matches_event event = true := by
  unfold CalendarRsvp.matches_event mk_local_rsvp
  dsimp only
  simp

theorem newer_than_false_of_older {y x : CalendarRsvp}
    (h : y.created_at < x.created_at) : newer_than y x = false := by
  simp only [newer_than, Bool.or_eq_false_iff, Bool.and_eq_false_iff]
  constructor
  · simp only [decide_eq_false_iff_not]
    omega
  · left
    simp only [decide_eq_false_iff_not]
    omega

theorem mk_local_not_superseded {s : CalendarApp} {attendee id : String}
    {created : Nat} (event : CalendarEvent) (status : RsvpStatus)
    (hfresh : ∀ x ∈ avals s.all_rsvps, x.attendee_hex = attendee →
      x.created_at < created) :
    ∀ y ∈ avals (ainsert s.all_rsvps id (mk_local_rsvp event status attendee id created)),
      y.matches_event event = true →
      y.attendee_hex = (mk_local_rsvp event status attendee id created).attendee_hex →
      newer_than y (mk_local_rsvp event status attendee id created) = false := by
  intro y hy _ hyatt
  rcases mem_avals_ainsert hy with rfl | hy'
  · exact newer_than_self _
  · exact newer_than_false_of_older (hfresh y hy' hyatt)

/-- C6: after a successful local RSVP submission (target event present at
the given index with an identifier, predicted record strictly newer than
every stored same-attendee RSVP), the synthetic RSVP is stored in both the
confirmed and pending maps under its predicted id, and it is in the target
event's association list immediately. -/
theorem submit_rsvp_visible (s : CalendarApp) (idx : Nat) (event : CalendarEvent)
    (status : RsvpStatus) (attendee id : String) (created : Nat) (idty : String)
    (hid : event.identifier = some idty)
    (hget : s.events.get? idx = some event)
    (hfresh : ∀ x ∈ avals s.all_rsvps, x.attendee_hex = attendee →
      x.created_at < created) :
    afind (submit_rsvp s idx event status attendee id created).all_rsvps id =
      some (mk_local_rsvp event status attendee id created) ∧
    afind (submit_rsvp s idx event status attendee id created).pending_rsvps id =
      some (mk_local_rsvp event status attendee id created) ∧
    ∃ e', (submit_rsvp s idx event status attendee id created).events.get? idx =
        some e' ∧
      mk_local_rsvp event status attendee id created ∈ e'.rsvps := by
  obtain ⟨hlt, _⟩ := List.get?_eq_some.mp hget
  refine ⟨?_, ?_, ?_⟩
  · rw [submit_rsvp_all_rsvps_eq hid]
    exact afind_ainsert_self _ _ _
  · rw [submit_rsvp_pending_eq hid]
    exact afind_ainsert_self _ _ _
  · rw [submit_rsvp_events_eq hid hget]
    refine ⟨_, List.get?_set_eq_of_lt _ hlt, ?_⟩
    show mk_local_rsvp event status attendee id created ∈
      match_rsvps_for_event event (relevant_rsvps_for
        (ainsert s.all_rsvps id (mk_local_rsvp event status attendee id created)) event)
    rw [match_rsvps_relevant]
    refine (mem_match_rsvps event _ _).mpr ⟨?_, ?_, ?_⟩
    · exact self_mem_avals_ainsert _ _ _
    · exact mk_local_matches_self event status attendee id created
    · exact mk_local_not_superseded event status hfresh

/-- C6 witness: the theorem applied to a concrete submission into a
single-event state with no stored RSVPs. -/
theorem submit_rsvp_visible_witness :
    afind (submit_rsvp c2_state 0 c2_event .accepted "bb" "r9" 50).all_rsvps "r9" =
      some (mk_local_rsvp c2_event .accepted "bb" "r9" 50) ∧
    afind (submit_rsvp c2_state 0 c2_event .accepted "bb" "r9" 50).pending_rsvps "r9" =
      some (mk_local_rsvp c2_event .accepted "bb" "r9" 50) ∧
    ∃ e', (submit_rsvp c2_state 0 c2_event .accepted "bb" "r9" 50).events.get? 0 =
        some e' ∧
      mk_local_rsvp c2_event .accepted "bb" "r9" 50 ∈ e'.rsvps := by
  exact submit_rsvp_visible c2_state 0 c2_event .accepted "bb" "r9" 50 "i1" rfl rfl
    (by intro x hx; simp [c2_state, avals] at hx)

/-- Concrete state for the C7 witness: the target event plus one stored
older RSVP from the same attendee. -/
def c7_state : CalendarApp :=
  { events := [c2_event], calendars := [], all_rsvps := [("r1", c2_old)],
    pending_rsvps := [] }

/-- C7: when the same attendee submits a second local RSVP for the event
with a different predicted id that is strictly newer than every stored
same-attendee RSVP, the recomputed association contains the new RSVP and no
longer contains the attendee's previous one — the newest matching RSVP wins
rather than both being counted. -/
theorem submit_rsvp_supersedes (s : CalendarApp) (idx : Nat)
    (event : CalendarEvent) (status : RsvpStatus) (attendee id : String)
    (created : Nat) (idty : String) (old : CalendarRsvp)
    (hid : event.identifier = some idty)
    (hget : s.events.get? idx = some event)
    (hold : old ∈ avals s.all_rsvps) (hatt : old.attendee_hex = attendee)
    (hfresh : ∀ x ∈ avals s.all_rsvps, x.attendee_hex = attendee →
      x.created_at < created) :
    ∃ e', (submit_rsvp s idx event status attendee id created).events.get? idx =
        some e' ∧
      mk_local_rsvp event status attendee id created ∈ e'.rsvps ∧
      old ∉ e'.rsvps := by
  obtain ⟨hlt, _⟩ := List.get?_eq_some.mp hget
  rw [submit_rsvp_events_eq hid hget]
  refine ⟨_, List.get?_set_eq_of_lt _ hlt, ?_, ?_⟩
  · show mk_local_rsvp event status attendee id created ∈
      match_rsvps_for_event event (relevant_rsvps_for
        (ainsert s.all_rsvps id (mk_local_rsvp event status attendee id created)) event)
    rw [match_rsvps_relevant]
    refine (mem_match_rsvps event _ _).mpr ⟨?_, ?_, ?_⟩
    · exact self_mem_avals_ainsert _ _ _
    · exact mk_local_matches_self event status attendee id created
    · exact mk_local_not_superseded event status hfresh
  · show old ∉
      match_rsvps_for_event event (relevant_rsvps_for
        (ainsert s.all_rsvps id (mk_local_rsvp event status attendee id created)) event)
    rw [match_rsvps_relevant]
    intro hmem
    obtain ⟨_, _, hsup⟩ := (mem_match_rsvps event _ _).mp hmem
    have hnewmem := self_mem_avals_ainsert s.all_rsvps id
      (mk_local_rsvp event status attendee id created)
    have := hsup _ hnewmem (mk_local_matches_self event status attendee id created)
      (by rw [hatt]; rfl)
    have hyoung : old.created_at < created := hfresh old hold hatt
    have htrue : newer_than (mk_local_rsvp event status attendee id created) old =
        true := by
      simp only [newer_than, Bool.or_eq_true, decide_eq_true_eq]
      left
      exact hyoung
    rw [this] at htrue
    cases htrue

/-- C7 witness: the theorem applied to a concrete re-submission with a new
predicted id over a state already holding the attendee's older RSVP. -/
theorem submit_rsvp_supersedes_witness :
    ∃ e', (submit_rsvp c7_state 0 c2_event .declined "bb" "r9" 50).events.get? 0 =
        some e' ∧
      mk_local_rsvp c2_event .declined "bb" "r9" 50 ∈ e'.rsvps ∧
      c2_old ∉ e'.rsvps := by
  exact submit_rsvp_supersedes c7_state 0 c2_event .declined "bb" "r9" 50 "i1"
    c2_old rfl rfl (by decide) rfl (by decide)

/-! ### C5: idempotence of ingestion -/

theorem calendar_app_ext {a b : CalendarApp} (h1 : a.events = b.events)
    (h2 : a.calendars = b.calendars) (h3 : a.all_rsvps = b.all_rsvps)
    (h4 : a.pending_rsvps = b.pending_rsvps) : a = b := by
  cases a
  cases b
  cases h1
  cases h2
  cases h3
  cases h4
  rfl

theorem findPos_set_self {α : Type} {p : α → Bool} {l : List α} {i : Nat}
    (h : findPos p l = some i) {b : α} (hb : p b = true) :
    findPos p (l.set i b) = some i := by
  induction l generalizing i with
  | nil => simp [findPos] at h
  | cons a as ih =>
      by_cases hp : p a
      · simp [findPos, hp] at h
        subst h
        show findPos p (b :: as) = some 0
        simp [findPos, hb]
      · simp only [findPos, if_neg hp] at h
        rcases Option.map_eq_some'.mp h with ⟨j, hj, rfl⟩
        show findPos p (a :: as.set j b) = some (j + 1)
        simp only [findPos, if_neg hp]
        rw [ih hj]
        rfl

theorem findPos_append_singleton {α : Type} {p : α → Bool} {l : List α}
    (h : findPos p l = none) {b : α} (hb : p b = true) :
    findPos p (l ++ [b]) = some l.length := by
  induction l with
  | nil => simp [findPos, hb]
  | cons a as ih =>
      have hp : p a = false := by
        simp only [findPos] at h
        by_cases hpa : p a
        · simp [hpa] at h
        · exact Bool.eq_false_iff.mpr hpa
      have h' : findPos p as = none := by
        simp only [findPos, hp] at h
        simpa using h
      show (if p a = true then some 0
          else (findPos p (as ++ [b])).map (fun n => n + 1)) = some (a :: as).length
      rw [hp, ih h']
      simp

theorem set_append_singleton {α : Type} (l : List α) (b c : α) :
    (l ++ [b]).set l.length c = l ++ [c] := by
  induction l with
  | nil => rfl
  | cons a as ih =>
      show a :: ((as ++ [b]).set as.length c) = a :: (as ++ [c])
      rw [ih]

theorem mem_ainsert_of_ne {V : Type} {m : List (String × V)} {p : String × V}
    (hp : p ∈ m) {k : String} (hne : p.1 ≠ k) (v : V) : p ∈ ainsert m k v := by
  unfold ainsert
  by_cases hc : m.any (fun q => q.1 == k)
  · rw [if_pos hc]
    refine List.mem_map.mpr ⟨p, hp, ?_⟩
    rw [if_neg (by simpa using hne)]
  · rw [if_neg hc]
    exact List.mem_append.mpr (Or.inl hp)

theorem acontains_ainsert_mono {V : Type} {m : List (String × V)} {k k' : String}
    (h : acontains m k = true) (v : V) : acontains (ainsert m k' v) k = true := by
  by_cases hkk : k = k'
  · subst hkk
    exact acontains_ainsert_self m k v
  · rcases List.any_eq_true.mp h with ⟨p, hp, hpk⟩
    refine List.any_eq_true.mpr ⟨p, ?_, hpk⟩
    refine mem_ainsert_of_ne hp ?_ v
    intro hc
    exact hkk ((by simpa using hpk : p.1 = k) ▸ hc)

theorem acontains_placeholder_step_mono {m : List (String × CalendarDefinition)}
    {k : String} (h : acontains m k = true) (c : String) :
    acontains (placeholder_step m c) k = true := by
  unfold placeholder_step
  by_cases hc : acontains m c
  · rw [if_pos hc]
    exact h
  · rw [if_neg hc]
    cases parse_calendar_coordinate c with
    | none => exact h
    | some pr =>
        obtain ⟨a, i⟩ := pr
        exact acontains_ainsert_mono h _

theorem acontains_fold_mono {coords : List String}
    {m : List (String × CalendarDefinition)} {k : String}
    (h : acontains m k = true) :
    acontains (coords.foldl placeholder_step m) k = true := by
  induction coords generalizing m with
  | nil => exact h
  | cons c cs ih => exact ih (acontains_placeholder_step_mono h c)

theorem placeholder_fold_complete (coords : List String)
    (m : List (String × CalendarDefinition)) :
    ∀ c ∈ coords, (parse_calendar_coordinate c).isSome →
      acontains (coords.foldl placeholder_step m) c = true := by
  induction coords generalizing m with
  | nil => intro c hc; simp at hc
  | cons a cs ih =>
      intro c hc hp
      rcases List.mem_cons.mp hc with rfl | hc'
      · rw [List.foldl_cons]
        apply acontains_fold_mono
        unfold placeholder_step
        by_cases hca : acontains m c
        · rw [if_pos hca]
          exact hca
        · rw [if_neg hca]
          cases hpc : parse_calendar_coordinate c with
          | none => rw [hpc] at hp; simp at hp
          | some pr =>
              obtain ⟨x, y⟩ := pr
              exact acontains_ainsert_self _ _ _
      · exact ih (placeholder_step m a) c hc' hp

theorem placeholder_fold_eq_self {coords : List String}
    {m : List (String × CalendarDefinition)}
    (h : ∀ c ∈ coords, (parse_calendar_coordinate c).isSome →
      acontains m c = true) :
    coords.foldl placeholder_step m = m := by
  induction coords with
  | nil => rfl
  | cons a cs ih =>
      have hstep : placeholder_step m a = m := by
        unfold placeholder_step
        by_cases hca : acontains m a
        · rw [if_pos hca]
        · rw [if_neg hca]
          cases hpc : parse_calendar_coordinate a with
          | none => rfl
          | some pr =>
              exact absurd (h a (by simp) (by simp [hpc])) hca
      rw [List.foldl_cons, hstep]
      exact ih (fun c hc hp => h c (by simp [hc]) hp)

theorem placeholder_fold_idem (coords : List String)
    (m : List (String × CalendarDefinition)) :
    coords.foldl placeholder_step (coords.foldl placeholder_step m) =
      coords.foldl placeholder_step m :=
  placeholder_fold_eq_self (fun c hc hp => placeholder_fold_complete coords m c hc hp)

theorem same_identity_refl {a : CalendarEvent} {i : String}
    (h : a.identifier = some i) : same_identity a a = true :=
  same_identity_intro rfl h h (eqci_refl i) (eqci_refl a.author_hex)

theorem find_event_index_eq_findPos_id (events : List CalendarEvent)
    (event : CalendarEvent) (h : event.identifier = none) :
    find_event_index events event =
      findPos (fun existing => existing.id_hex == event.id_hex) events := by
  unfold find_event_index
  rw [h]

theorem upsert_event_pending (s : CalendarApp) (e : CalendarEvent) :
    (upsert_event s e).pending_rsvps = s.pending_rsvps := by
  unfold upsert_event
  cases find_event_index s.events e <;> rfl

theorem upsert_event_events_idem (s : CalendarApp) (e : CalendarEvent)
    (s' : CalendarApp) (hs : s'.events = (upsert_event s e).events) :
    (upsert_event s' e).events = s'.events := by
  unfold upsert_event at hs ⊢
  cases hid : e.identifier with
  | some i =>
      rw [find_event_index_eq_findPos s'.events e hid]
      rw [find_event_index_eq_findPos s.events e hid] at hs
      have hrefl : same_identity e e = true := same_identity_refl hid
      cases hfi : findPos (fun existing => same_identity existing e) s.events with
      | some idx =>
          rw [hfi] at hs
          dsimp only at hs
          rw [hs, findPos_set_self hfi hrefl]
          dsimp only
          rw [List.set_set]
      | none =>
          rw [hfi] at hs
          dsimp only at hs
          rw [hs, findPos_append_singleton hfi hrefl]
          dsimp only
          rw [set_append_singleton]
  | none =>
      rw [find_event_index_eq_findPos_id s'.events e hid]
      rw [find_event_index_eq_findPos_id s.events e hid] at hs
      have hrefl : (e.id_hex == e.id_hex) = true := by simp
      cases hfi : findPos (fun existing => existing.id_hex == e.id_hex) s.events with
      | some idx =>
          rw [hfi] at hs
          dsimp only at hs
          rw [hs, findPos_set_self hfi hrefl]
          dsimp only
          rw [List.set_set]
      | none =>
          rw [hfi] at hs
          dsimp only at hs
          rw [hs, findPos_append_singleton hfi hrefl]
          dsimp only
          rw [set_append_singleton]

theorem upsert_event_fix {s s' : CalendarApp} (e : CalendarEvent)
    (hev : s'.events = (upsert_event s e).events) : upsert_event s' e = s' :=
  calendar_app_ext (upsert_event_events_idem s e s' hev)
    (upsert_event_calendars s' e) (upsert_event_all_rsvps s' e)
    (upsert_event_pending s' e)

theorem populate_congr {s₁ s₂ : CalendarApp} (h : s₁.all_rsvps = s₂.all_rsvps)
    (e : CalendarEvent) : populate_event_rsvps s₁ e = populate_event_rsvps s₂ e := by
  unfold populate_event_rsvps relevant_rsvps_for
  rw [h]

theorem ingest_event_idem (s : CalendarApp) (e : CalendarEvent) :
    ingest_event (ingest_event s e) e = ingest_event s e := by
  have hall : (ingest_event s e).all_rsvps = s.all_rsvps :=
    upsert_event_all_rsvps s (populate_event_rsvps s e)
  have hpop : populate_event_rsvps (ingest_event s e) e = populate_event_rsvps s e :=
    populate_congr hall e
  have hev : (ingest_event s e).events =
      (upsert_event s (populate_event_rsvps s e)).events := rfl
  have hfix : upsert_event (ingest_event s e) (populate_event_rsvps s e) =
      ingest_event s e :=
    upsert_event_fix _ hev
  show ensure_calendar_placeholders (upsert_event (ingest_event s e)
    (populate_event_rsvps (ingest_event s e) e)) = ingest_event s e
  rw [hpop, hfix]
  apply calendar_app_ext
  · rfl
  · exact placeholder_fold_idem _ _
  · rfl
  · rfl

theorem str_lt_irrefl (a : String) : str_lt a a = false := by
  unfold str_lt
  exact chars_lt_irrefl a.data

theorem insert_calendar_entry_idem (m : List (String × CalendarDefinition))
    (c : CalendarDefinition) :
    insert_calendar_entry (insert_calendar_entry m c) c =
      insert_calendar_entry m c := by
  have hnorep : ¬(c.created_at < c.created_at ∨
      (c.created_at = c.created_at ∧ str_lt c.id_hex c.id_hex = true)) := by
    rintro (h | ⟨-, h⟩)
    · omega
    · rw [str_lt_irrefl] at h
      cases h
  unfold insert_calendar_entry
  cases hf : afind m c.coordinate with
  | none =>
      dsimp only
      rw [afind_ainsert_self]
      dsimp only
      rw [if_neg hnorep]
  | some old =>
      dsimp only
      by_cases hrep : old.created_at < c.created_at ∨
          (c.created_at = old.created_at ∧ str_lt old.id_hex c.id_hex = true)
      · rw [if_pos hrep, afind_ainsert_self]
        dsimp only
        rw [if_neg hnorep]
      · rw [if_neg hrep, hf]
        dsimp only
        rw [if_neg hrep]

theorem upsert_calendar_idem (s : CalendarApp) (c : CalendarDefinition) :
    upsert_calendar (upsert_calendar s c) c = upsert_calendar s c :=
  calendar_app_ext rfl (insert_calendar_entry_idem s.calendars c) rfl rfl

theorem apply_rsvp_idem (s : CalendarApp) (r : CalendarRsvp) :
    apply_rsvp (apply_rsvp s r) r = apply_rsvp s r := by
  have hA : ainsert (apply_rsvp s r).all_rsvps r.id_hex r =
      ainsert s.all_rsvps r.id_hex r := ainsert_idem s.all_rsvps r.id_hex r
  apply calendar_app_ext
  · show (apply_rsvp s r).events.map (fun e =>
        if r.matches_event e then
          { e with rsvps := (match_rsvps_for_event e
              (relevant_rsvps_for (ainsert (apply_rsvp s r).all_rsvps r.id_hex r) e)) }
        else e) = (apply_rsvp s r).events
    rw [hA]
    show (s.events.map (fun e =>
        if r.matches_event e then
          { e with rsvps := (match_rsvps_for_event e
              (relevant_rsvps_for (ainsert s.all_rsvps r.id_hex r) e)) }
        else e)).map (fun e =>
        if r.matches_event e then
          { e with rsvps := (match_rsvps_for_event e
              (relevant_rsvps_for (ainsert s.all_rsvps r.id_hex r) e)) }
        else e) = s.events.map (fun e =>
        if r.matches_event e then
          { e with rsvps := (match_rsvps_for_event e
              (relevant_rsvps_for (ainsert s.all_rsvps r.id_hex r) e)) }
        else e)
    rw [List.map_map]
    apply List.map_congr_left
    intro e _
    dsimp only [Function.comp]
    by_cases hm : r.matches_event e
    · rw [if_pos hm]
      have hm' : r.matches_event { e with rsvps := (match_rsvps_for_event e
          (relevant_rsvps_for (ainsert s.all_rsvps r.id_hex r) e)) } = true := by
        rw [matches_event_rsvps_update]
        exact hm
      rw [if_pos hm']
      rfl
    · rw [if_neg hm, if_neg hm]
  · rfl
  · exact hA
  · exact aerase_idem s.pending_rsvps r.id_hex

/-- C5: ingesting the same parsed record twice — an event, a calendar
definition or an RSVP — leaves the entire engine state (events with their
association lists, calendar definitions including placeholders, confirmed
and pending RSVP maps) identical to ingesting it once. -/
theorem ingest_idempotent (s : CalendarApp) (rec : Record) :
    ingest (ingest s rec) rec = ingest s rec := by
  cases rec with
  | ev e => exact ingest_event_idem s e
  | cal c => exact upsert_calendar_idem s c
  | rsvp r => exact apply_rsvp_idem s r

/-! ### C9: event-construction validation -/

theorem ebind_ok {A B : Type} {x : Except String A} {a : A} (h : x = .ok a)
    (k : A → Except String B) : (x >>= k) = k a := by subst h; rfl

theorem emap_ok {A B : Type} {x : Except String A} {a : A} (h : x = .ok a)
    (f : A → B) : (x.map f) = .ok (f a) := by subst h; rfl

theorem parse_required_date_err {v f : String} (h : parse_date v.trim = none) :
    parse_required_date v f = .error (f ++ " must use YYYY-MM-DD format") := by
  unfold parse_required_date
  rw [h]

theorem parse_required_date_ok {v f : String} {d : NaiveDate}
    (h : parse_date v.trim = some d) : parse_required_date v f = .ok d := by
  unfold parse_required_date
  rw [h]

theorem parse_required_time_empty {v f : String} (h : v.trim = "") :
    parse_required_time v f = .error (f ++ " is required") := by
  unfold parse_required_time
  rw [h]
  rfl

theorem parse_required_time_err {v f : String} (h1 : v.trim ≠ "")
    (h2 : parse_time v.trim = none) :
    parse_required_time v f = .error (f ++ " must use HH:MM or HH:MM:SS format") := by
  unfold parse_required_time
  rw [if_neg h1, h2]

theorem parse_required_time_ok {v f : String} {t : NaiveTime} (h1 : v.trim ≠ "")
    (h2 : parse_time v.trim = some t) : parse_required_time v f = .ok t := by
  unfold parse_required_time
  rw [if_neg h1, h2]

theorem parse_optional_date_ok {v f : String} {d : NaiveDate} (h1 : v.trim ≠ "")
    (h2 : parse_date v.trim = some d) : parse_optional_date v f = .ok (some d) := by
  unfold parse_optional_date
  rw [if_neg h1, parse_required_date_ok h2]
  rfl

theorem resolve_timestamp_empty {oracle : TzOracle} {naive : Int} {tzid : String}
    (h : tzid = "") (label : String) :
    resolve_timestamp oracle naive tzid label = .ok (naive, none) := by
  unfold resolve_timestamp
  rw [if_pos h]

/-- C9: building a local calendar-event record fails with a descriptive
error string for every validation failure — blank identifier, blank title,
missing or malformed start date or start time, end before start (date span
or timed with UTC times) — and on any build failure, as well as on the
pre-checks, `submit_event_creation` leaves the engine state completely
unchanged. -/
theorem build_event_validation (s : CalendarApp) (draft : CalendarEventDraft)
    (has_account : Bool) (author_hex note_id : String) (note_created_at : Nat)
    (oracle : TzOracle) :
    (draft.identifier.trim = "" →
      build_calendar_event_note draft author_hex note_id note_created_at oracle =
        .error "Identifier is required.") ∧
    (draft.identifier.trim ≠ "" → draft.title.trim = "" →
      build_calendar_event_note draft author_hex note_id note_created_at oracle =
        .error "Title is required.") ∧
    (draft.identifier.trim ≠ "" → draft.title.trim ≠ "" →
      draft.event_type = .allDay → parse_date draft.start_date.trim = none →
      build_calendar_event_note draft author_hex note_id note_created_at oracle =
        .error "Start date must use YYYY-MM-DD format") ∧
    (∀ sd ed, draft.identifier.trim ≠ "" → draft.title.trim ≠ "" →
      draft.event_type = .allDay → parse_date draft.start_date.trim = some sd →
      draft.include_end = true → draft.end_date.trim ≠ "" →
      parse_date draft.end_date.trim = some ed → ed.civil < sd.civil →
      build_calendar_event_note draft author_hex note_id note_created_at oracle =
        .error "End date cannot be before start date.") ∧
    (draft.identifier.trim ≠ "" → draft.title.trim ≠ "" →
      draft.event_type = .timed → parse_date draft.start_date.trim = none →
      build_calendar_event_note draft author_hex note_id note_created_at oracle =
        .error "Start date must use YYYY-MM-DD format") ∧
    (∀ sd, draft.identifier.trim ≠ "" → draft.title.trim ≠ "" →
      draft.event_type = .timed → parse_date draft.start_date.trim = some sd →
      draft.start_time.trim = "" →
      build_calendar_event_note draft author_hex note_id note_created_at oracle =
        .error "Start time is required") ∧
    (∀ sd, draft.identifier.trim ≠ "" → draft.title.trim ≠ "" →
      draft.event_type = .timed → parse_date draft.start_date.trim = some sd →
      draft.start_time.trim ≠ "" → parse_time draft.start_time.trim = none →
      build_calendar_event_note draft author_hex note_id note_created_at oracle =
        .error "Start time must use HH:MM or HH:MM:SS format") ∧
    (∀ sd st et, draft.identifier.trim ≠ "" → draft.title.trim ≠ "" →
      draft.event_type = .timed → parse_date draft.start_date.trim = some sd →
      draft.start_time.trim ≠ "" → parse_time draft.start_time.trim = some st →
      draft.start_tzid.trim = "" → draft.include_end = true →
      draft.end_time.trim ≠ "" → parse_time draft.end_time.trim = some et →
      draft.end_date.trim = "" → draft.end_tzid.trim = "" →
      naive_timestamp sd et < naive_timestamp sd st →
      build_calendar_event_note draft author_hex note_id note_created_at oracle =
        .error "End time must be after start time.") ∧
    (∀ msg, build_calendar_event_note draft author_hex note_id note_created_at
        oracle = .error msg →
      submit_event_creation s draft has_account author_hex note_id note_created_at
        oracle = s) := by
  refine ⟨?_, ?_, ?_, ?_, ?_, ?_, ?_, ?_, ?_⟩
  · intro h1
    unfold build_calendar_event_note
    rw [if_pos h1]
  · intro h1 h2
    unfold build_calendar_event_note
    rw [if_neg h1, if_pos h2]
  · intro h1 h2 hty hps
    unfold build_calendar_event_note
    rw [if_neg h1, if_neg h2, hty]
    dsimp only
    rw [parse_required_date_err hps]
    rfl
  · intro sd ed h1 h2 hty hps hie hene hpe hcmp
    unfold build_calendar_event_note
    rw [if_neg h1, if_neg h2, hty]
    dsimp only
    rw [ebind_ok (parse_required_date_ok hps)]
    rw [hie, if_pos rfl]
    have hend : (parse_optional_date draft.end_date "End date").map
        (fun o => o.getD sd) = .ok ed := by
      rw [emap_ok (parse_optional_date_ok hene hpe)]
      rfl
    rw [ebind_ok hend]
    rw [if_pos hcmp]
    rfl
  · intro h1 h2 hty hps
    unfold build_calendar_event_note
    rw [if_neg h1, if_neg h2, hty]
    dsimp only
    rw [parse_required_date_err hps]
    rfl
  · intro sd h1 h2 hty hps hst
    unfold build_calendar_event_note
    rw [if_neg h1, if_neg h2, hty]
    dsimp only
    rw [parse_required_date_ok hps]
    dsimp only [Bind.bind, Except.instMonad, Except.bind]
    rw [parse_required_time_empty hst]
    rfl
  · intro sd h1 h2 hty hps hst hpt
    unfold build_calendar_event_note
    rw [if_neg h1, if_neg h2, hty]
    dsimp only
    rw [parse_required_date_ok hps]
    dsimp only [Bind.bind, Except.instMonad, Except.bind]
    rw [parse_required_time_err hst hpt]
    rfl
  · intro sd st et h1 h2 hty hps hstne hpt htz hie hetne hpet hed hetz hlt
    unfold build_calendar_event_note
    rw [if_neg h1, if_neg h2, hty]
    dsimp only
    rw [parse_required_date_ok hps]
    dsimp only [Bind.bind, Except.instMonad, Except.bind]
    rw [parse_required_time_ok hstne hpt]
    dsimp only [Bind.bind, Except.instMonad, Except.bind]
    rw [resolve_timestamp_empty htz]
    dsimp only [Bind.bind, Except.instMonad, Except.bind]
    rw [hie, if_pos rfl, parse_required_time_ok hetne hpet]
    dsimp only [Bind.bind, Except.instMonad, Except.bind]
    rw [hed, if_pos rfl]
    dsimp only [Pure.pure, Except.pure, Bind.bind, Except.instMonad, Except.bind]
    rw [resolve_timestamp_empty (show (if draft.end_tzid.trim = "" then
      draft.start_tzid.trim else draft.end_tzid.trim) = "" by rw [if_pos hetz]; exact htz)]
    dsimp only [Bind.bind, Except.instMonad, Except.bind]
    rw [if_pos hlt]
    rfl
  · intro msg hbuild
    unfold submit_event_creation
    by_cases h1 : draft.identifier.trim = ""
    · rw [if_pos h1]
    · rw [if_neg h1]
      by_cases h2 : draft.title.trim = ""
      · rw [if_pos h2]
      · rw [if_neg h2]
        cases has_account with
        | false => rfl
        | true =>
            simp only [Bool.not_true, Bool.false_eq_true, if_false]
            rw [hbuild]

theorem trim_empty : ("" : String).trim = "" := by
  unfold String.trim
  simp only [Substring.trim, Substring.trimLeft, Substring.trimRight, String.toSubstring]
  rw [Substring.takeWhileAux]
  norm_num
  rw [Substring.takeRightWhileAux]
  norm_num
  rfl

/-- A draft with a blank identifier, used by the C9 witness. -/
def c9_draft : CalendarEventDraft :=
  { event_type := .timed
    identifier := ""
    title := "t"
    start_date := ""
    end_date := ""
    start_time := ""
    end_time := ""
    include_end := false
    start_tzid := ""
    end_tzid := ""
    calendars := [] }

/-- C9 witness: the blank-identifier draft fails to build with the exact
error string, and submitting it leaves a fresh engine state unchanged. -/
theorem build_event_validation_witness :
    build_calendar_event_note c9_draft "a" "n" 5 (fun _ _ => none) =
      .error "Identifier is required." ∧
    submit_event_creation CalendarApp.new c9_draft true "a" "n" 5
      (fun _ _ => none) = CalendarApp.new := by
  have h := build_event_validation CalendarApp.new c9_draft true "a" "n" 5
    (fun _ _ => none)
  have hid : c9_draft.identifier.trim = "" := trim_empty
  exact ⟨h.1 hid, h.2.2.2.2.2.2.2.2 "Identifier is required." (h.1 hid)⟩
